import Mathlib

/-!
Verification development for the `pysui` asynchronous programmable-transaction
builder (`pysui/sui/sui_txn/async_transaction.py`).

The Python code is shallowly embedded: every method is a pure Lean function,
taking the transaction state and the responses of the external execution
service (the RPC client) as explicit arguments, and returning an
`Except PyErr` outcome together with the updated transaction state and a log
of the batched object-fetch requests it issued.  Python exceptions are the
`PyErr` error values; Python in-place list mutation becomes explicit list
updates.

Code of the repository that lives outside the excerpted module (the base
transaction class, the command builder, the BCS value classes and the RPC
client) is modelled from the specification; each such definition carries a
doc comment starting with `Modelled from the spec:`.
-/

/-- Ownership kinds of an on-chain object record, as matched by
`_resolve_objects` (`AddressOwner`, `ImmutableOwner`, `SharedOwner`); the
fourth constructor stands for every other owner type a record may carry,
which the source never matches. -/
inductive Owner where
  | addressOwner (address : String)
  | immutableOwner
  | sharedOwner (initialVersion : Nat)
  | objectOwnerKind (parent : String)
deriving DecidableEq

/-- An `ObjectRead` result record: identifier, version, digest and owner. -/
structure ObjectReadRec where
  object_id : String
  version : Nat
  digest : Nat
  owner : Owner
deriving DecidableEq

/-- One entry of a batched `get_objects_for` response: either a full object
record or a record typed as nonexistent (`ObjectNotExist`, which carries no
owner field). -/
inductive FetchedRec where
  | read (r : ObjectReadRec)
  | notExist (object_id : String)
deriving DecidableEq

/-- `bcs.ObjectReference`: identifier, version, digest. -/
structure ObjectReference where
  object_id : String
  version : Nat
  digest : Nat
deriving DecidableEq

/-- `bcs.SharedObjectReference`: identifier, initial shared version and the
`Mutable` flag. -/
structure SharedObjectReference where
  object_id : String
  initial_shared_version : Nat
  Mutable : Bool
deriving DecidableEq

/-- `bcs.ObjectArg`: the `ImmOrOwnedObject` / `SharedObject` tagged union.
The `dynMutable` component of `immOrOwnedObject` records the attribute that
Python's `r_arg.value.Mutable = True` sets dynamically on an
`ObjectReference` payload (the serialized struct has no such field, so it is
`none` until patched). -/
inductive ObjectArg where
  | immOrOwnedObject (ref : ObjectReference) (dynMutable : Option Bool)
  | sharedObject (ref : SharedObjectReference)
deriving DecidableEq

instance : Inhabited ObjectArg := ⟨.immOrOwnedObject ⟨"", 0, 0⟩ none⟩

/-- Effect of `r_arg.value.Mutable = True` on either `ObjectArg` variant. -/
def ObjectArg.setMutable : ObjectArg → ObjectArg
  | .immOrOwnedObject ref _ => .immOrOwnedObject ref (some true)
  | .sharedObject ref => .sharedObject { ref with Mutable := true }

/-- Read back the `Mutable` attribute of an object argument's payload
(`none` when the attribute was never set). -/
def ObjectArg.mutableFlag : ObjectArg → Option Bool
  | .immOrOwnedObject _ d => d
  | .sharedObject ref => some ref.Mutable

/-- `bcs.BuilderArg`: the raw input-table entry paired with an object
argument, or a pure byte payload. -/
inductive BuilderArg where
  | object (address : String)
  | pureBytes (payload : Nat)
deriving DecidableEq

/-- `bcs.Argument`: result handles produced by the command builder. -/
inductive Argument where
  | input (idx : Nat)
  | gasCoin
  | result (cmdIdx : Nat)
  | nestedResult (cmdIdx resIdx : Nat)
deriving DecidableEq

/-- Payload of a Pure input produced by `PureInput.as_input`. -/
inductive PureV where
  | u64 (v : Nat)
  | addr (a : String)
deriving DecidableEq

/-- The heterogeneous argument union accepted by the builder calls: raw
object identifiers (`ObjectID`, also identifier strings after coercion),
pre-fetched `ObjectRead` records, `ObjectNotExist` records, already-built
protocol `Argument`s, plain Python scalars, already-encoded Pure inputs and
already-resolved `(BuilderArg, ObjectArg)` tuples. -/
inductive Item where
  | objectId (oid : String)
  | objRead (r : ObjectReadRec)
  | notExistRec (oid : String)
  | protoArg (a : Argument)
  | intVal (v : Int)
  | strVal (s : String)
  | pureInput (p : PureV)
  | objPair (b : BuilderArg) (o : ObjectArg)
deriving DecidableEq

/-- Python `__class__.__name__` of an `Item`, as tested by
`make_move_vector`. -/
def Item.className : Item → String
  | .objectId _ => "ObjectID"
  | .objRead _ => "ObjectRead"
  | .notExistRec _ => "ObjectNotExist"
  | .protoArg _ => "Argument"
  | .intVal _ => "int"
  | .strVal _ => "str"
  | .pureInput _ => "BuilderArg"
  | .objPair _ _ => "tuple"

/-- Python truthiness of an `Item` (`0`, `""` are falsy; every object
instance is truthy). -/
def Item.truthy : Item → Bool
  | .intVal v => v != 0
  | .strVal s => s != ""
  | _ => true

/-- Python exception values raised by the embedded methods. -/
inductive PyErr where
  | valueError (msg : String)
  | assertionError (msg : String)
  | attributeError (attr : String)
  | unboundLocalError (name : String)
  | indexError (what : String)
deriving DecidableEq

/-- A transaction command accumulated by the builder, with the fields the
claims inspect: target, (resolved) arguments, type arguments and the
declared result count. -/
inductive Command where
  | moveCall (target : String) (args : List Item) (typeArgs : List String)
      (resCount : Nat)
  | splitCoin (coin : Item) (amounts : List Item)
  | mergeCoins (dest : Item) (sources : List Item)
  | transferObjects (recipient : Item) (objs : List Item)
  | makeMoveVec (typeTag : Option String) (args : List Item)
deriving DecidableEq

/-- A function parameter descriptor as returned by `GetFunction`; only
object-reference parameters carry an `is_mutable` attribute, so the field is
optional (`none` models `hasattr(parm, "is_mutable") == False`). -/
structure FnParam where
  is_mutable : Option Bool
deriving DecidableEq

/-- Cached move-call target metadata: the parameter descriptors and the
declared return count (`reslen`). -/
structure FnMeta where
  parameters : List FnParam
  returnsCount : Nat
deriving DecidableEq

/-- The mutable state of one `SuiTransactionAsync` object: the `_executed`
flag, the builder's accumulated command log, the `_MC_RESULT_CACHE`
move-call target cache, and the builder's `objects_registry` of object
identifiers already used as inputs. -/
structure TxState where
  executed : Bool
  commands : List Command
  cache : List (String × FnMeta)
  objectsRegistry : List String
deriving DecidableEq

/-- A fresh transaction object in Building state. -/
def emptyTx : TxState := { executed := false, commands := [], cache := [], objectsRegistry := [] }

/-- `SuiRpcResult`: an execution-service result value with its ok flag. -/
structure SuiRpcResult where
  ok : Bool
  result_string : String
deriving DecidableEq

/-- The coin record `handle_result(await self.client.get_object(...))`
returns for an explicit `use_gas_object`. -/
structure CoinRead where
  object_id : String
  version : Nat
  digest : Nat
  balance : Nat
  owner_address : String
deriving DecidableEq

/-- `bcs.GasData`: payment references, owner, gas price and budget. -/
structure GasData where
  payment : List ObjectReference
  owner : String
  price : Nat
  budget : Nat
deriving DecidableEq

/-- `bcs.TransactionData` (V1): rendered kind, sender and gas data (the
expiration is the constant `"None"` and is omitted). -/
structure TransactionData where
  kind : List Command
  sender : String
  gasData : GasData
deriving DecidableEq

/-- Outcome of the guarded dry-run inspection in `_build_for_execute`
(`try: result = await self.client.execute(_DebugInspectTransaction(...)) ...
except KeyError`):

* `respOk cost`: the client returned an ok result and
  `TxInspectionResult.factory` parsed it, reporting
  `effects.gas_used.total = cost`;
* `respErr msg`: the client returned a not-ok result
  (`raise ValueError(result.result_string)`);
* `factoryKeyError data`: `TxInspectionResult.factory(result.result_data)`
  raised `KeyError` after `result` was bound to the client's response whose
  `result_data` is `data`;
* `callKeyError`: `self.client.execute(...)` itself raised `KeyError`, so
  the local variable `result` was never bound when the handler runs. -/
inductive InspectOutcome where
  | respOk (cost : Nat)
  | respErr (msg : String)
  | factoryKeyError (data : String)
  | callKeyError
deriving DecidableEq

/-- `_build_for_execute`: dry-run inspection, budget resolution
(`gas_budget = max(ispec.effects.gas_used.total, int(gas_budget))`), gas
object selection and assembly of `TransactionData`.  `sb_payment` and
`sb_owner` are the payment references and owner the signer block's
`get_gas_object_async` collaborator returns; modelled from the spec: in both
modes the final Gas Data carries the payment references, the resolved owner,
the current reference gas price and the resolved budget. -/
def build_for_execute (st : TxState) (gas_budget : Nat)
    (inspect : InspectOutcome) (use_gas_object : Option CoinRead)
    (gas_price : Nat) (sb_payment : List ObjectReference) (sb_owner : String)
    (sender : String) : Except PyErr TransactionData :=
  match inspect with
  | .callKeyError =>
      -- the `except KeyError` handler evaluates `result.result_data`
      -- with `result` never having been bound
      .error (.unboundLocalError "result")
  | .factoryKeyError data => .error (.valueError data)
  | .respErr msg => .error (.valueError msg)
  | .respOk cost =>
    let budget := max cost gas_budget
    match use_gas_object with
    | some coin =>
      if coin.object_id ∈ st.objectsRegistry then
        .error (.valueError ("use_gas_object " ++ coin.object_id ++ " in use in transaction."))
      else if coin.balance < budget then
        .error (.valueError "Insufficient gas")
      else
        .ok ⟨st.commands, sender,
             ⟨[⟨coin.object_id, coin.version, coin.digest⟩],
              coin.owner_address, gas_price, budget⟩⟩
    | none =>
        .ok ⟨st.commands, sender, ⟨sb_payment, sb_owner, gas_price, budget⟩⟩

/-- `execute`: asserts the transaction was not executed, defaults the budget
(`gas_budget if gas_budget else "1000000"`), builds the transaction data,
submits it once and unconditionally sets `_executed = True`, returning the
submission result as a value.  The final `Nat` counts the submission calls
made to the execution service. -/
def execute (st : TxState) (gas_budget : Option Nat)
    (inspect : InspectOutcome) (use_gas_object : Option CoinRead)
    (gas_price : Nat) (sb_payment : List ObjectReference) (sb_owner : String)
    (sender : String) (submit_result : SuiRpcResult) :
    Except PyErr SuiRpcResult × TxState × Nat :=
  if st.executed then
    (.error (.assertionError "Transaction already executed"), st, 0)
  else
    match build_for_execute st (gas_budget.getD 1000000) inspect
        use_gas_object gas_price sb_payment sb_owner sender with
    | .error e => (.error e, st, 0)
    | .ok _txd => (.ok submit_result, { st with executed := true }, 1)

/-- C1: For every transaction whose dry-run inspection succeeds with reported
gas cost `cost` and every caller-supplied gas budget `gas_budget`, the budget
placed in the final `GasData` by `_build_for_execute` equals
`max(cost, gas_budget)`; in particular when the caller budget exceeds the
reported cost the resolved budget is the caller budget. -/
theorem budget_is_max_of_cost_and_budget (st : TxState) (gas_budget cost : Nat)
    (use_gas_object : Option CoinRead) (gas_price : Nat)
    (sb_payment : List ObjectReference) (sb_owner sender : String)
    (td : TransactionData)
    (h : build_for_execute st gas_budget (.respOk cost) use_gas_object
          gas_price sb_payment sb_owner sender = .ok td) :
    td.gasData.budget = max cost gas_budget ∧
      (cost < gas_budget → td.gasData.budget = gas_budget) := by
  have hmain : td.gasData.budget = max cost gas_budget := by
    cases use_gas_object with
    | none =>
      simp only [build_for_execute] at h
      cases h
      rfl
    | some coin =>
      simp only [build_for_execute] at h
      by_cases h1 : coin.object_id ∈ st.objectsRegistry
      · simp [h1] at h
      · by_cases h2 : coin.balance < max cost gas_budget
        · simp [h1, h2] at h
        · simp [h1, h2] at h
          cases h
          rfl
  refine ⟨hmain, fun hlt => ?_⟩
  rw [hmain]
  exact Nat.max_eq_right (Nat.le_of_lt hlt)

/-- Witness for `budget_is_max_of_cost_and_budget`: cost 700, caller budget
1000, inferred gas path; the resolved budget is 1000. -/
theorem budget_is_max_of_cost_and_budget_witness :
    build_for_execute emptyTx 1000 (.respOk 700) none 5 [] "owner" "sender" =
      .ok ⟨[], "sender", ⟨[], "owner", 5, 1000⟩⟩ ∧
    (⟨[], "sender", ⟨[], "owner", 5, 1000⟩⟩ : TransactionData).gasData.budget = max 700 1000 ∧
    (700 < 1000 → (⟨[], "sender", ⟨[], "owner", 5, 1000⟩⟩ : TransactionData).gasData.budget = 1000) :=
  ⟨rfl, budget_is_max_of_cost_and_budget emptyTx 1000 700 none 5 [] "owner" "sender" _ rfl⟩

/-- C5: Whenever `execute()` returns (the submission produced a result
`submit_result`), the transaction is marked Executed regardless of whether
the remote result reports success or failure; the remote result is returned
to the caller as a value, not raised, and exactly one submission call is
made (no automatic retry). -/
theorem execute_marks_executed_returns_result (st : TxState)
    (gas_budget : Option Nat) (inspect : InspectOutcome)
    (use_gas_object : Option CoinRead) (gas_price : Nat)
    (sb_payment : List ObjectReference) (sb_owner sender : String)
    (submit_result : SuiRpcResult) (td : TransactionData)
    (hexec : st.executed = false)
    (hbuild : build_for_execute st (gas_budget.getD 1000000) inspect
        use_gas_object gas_price sb_payment sb_owner sender = .ok td) :
    execute st gas_budget inspect use_gas_object gas_price sb_payment
        sb_owner sender submit_result =
      (.ok submit_result, { st with executed := true }, 1) := by
  simp only [execute, hexec, Bool.false_eq_true, if_false, hbuild]

/-- Witness for `execute_marks_executed_returns_result`: a remote result that
reports failure (`ok = false`) is still returned as a value and the
transaction still flips to Executed after exactly one submission. -/
theorem execute_marks_executed_returns_result_witness :
    (emptyTx.executed = false) ∧
    execute emptyTx none (.respOk 3) none 1 [] "owner" "sender" ⟨false, "remote failure"⟩ =
      (.ok ⟨false, "remote failure"⟩, { emptyTx with executed := true }, 1) :=
  ⟨rfl,
   execute_marks_executed_returns_result emptyTx none (.respOk 3) none 1 [] "owner" "sender"
     ⟨false, "remote failure"⟩ ⟨[], "sender", ⟨[], "owner", 1, 1000000⟩⟩ rfl rfl⟩

/-- C7: the two `KeyError` paths of the dry-run inspection in
`_build_for_execute`.  When `TxInspectionResult.factory` raises `KeyError`
after the client call returned (so `result` is bound), the handler raises
`ValueError(result.result_data)`.  But when the client call itself raises
`KeyError`, `result` was never bound and the handler's
`result.result_data` reference fails with `UnboundLocalError`, not a
ValueError-class failure — the latent bug the spec flags.  On neither path
is any default budget produced. -/
theorem inspection_keyerror_paths :
    build_for_execute emptyTx 1000 (.factoryKeyError "rawdata") none 1 [] "owner" "sender" =
      .error (.valueError "rawdata") ∧
    build_for_execute emptyTx 1000 .callKeyError none 1 [] "owner" "sender" =
      .error (.unboundLocalError "result") ∧
    PyErr.unboundLocalError "result" ≠ PyErr.valueError "rawdata" :=
  ⟨rfl, rfl, by decide⟩

/-! ## Argument classification and resolution -/

/-- How `_resolve_item` treats one argument. -/
inductive ItemClass where
  | needsFetch
  | tupleConvert
  | passThrough
  | pureConvert
deriving DecidableEq

/-- Modelled from the spec: the single-pass classification performed by the
base class's `_resolve_item` — raw identifiers/strings go to the
"needs object fetch" index list, object records (with ownership info) to the
"tuple conversion" index list, already-built protocol `Argument`s and
already-encoded inputs pass through, and plain scalars are converted in
place to Pure inputs. -/
def itemClass : Item → ItemClass
  | .objectId _ => .needsFetch
  | .strVal _ => .needsFetch
  | .objRead _ => .tupleConvert
  | .notExistRec _ => .tupleConvert
  | .protoArg _ => .passThrough
  | .intVal _ => .pureConvert
  | .pureInput _ => .passThrough
  | .objPair _ _ => .passThrough

/-- Boolean test for the "needs object fetch" class. -/
def isFetchB (it : Item) : Bool := itemClass it = ItemClass.needsFetch

/-- Boolean test for the "tuple conversion" class. -/
def isTupB (it : Item) : Bool := itemClass it = ItemClass.tupleConvert

/-- Modelled from the spec: `PureInput.as_input` encoding of a plain scalar
(the claims never inspect the bytes, only that the occurrence becomes a
fresh Pure input). -/
def pureInputOf : Item → Item
  | .intVal v => .pureInput (.u64 v.natAbs)
  | .strVal s => .pureInput (.addr s)
  | it => it

/-- In-place effect of the classification pass on one item. -/
def pureFix (it : Item) : Item :=
  if itemClass it = ItemClass.pureConvert then pureInputOf it else it

/-- `for index in range(len(items)): self._resolve_item(index, items,
objref_indexes, objtup_indexes)`: walks the list with a running absolute
index, returning the updated list and the two index lists. -/
def classifyFrom : List Item → Nat → List Item × List Nat × List Nat
  | [], _ => ([], [], [])
  | it :: rest, i =>
    let c := classifyFrom rest (i + 1)
    match itemClass it with
    | .needsFetch => (it :: c.1, i :: c.2.1, c.2.2)
    | .tupleConvert => (it :: c.1, c.2.1, i :: c.2.2)
    | .passThrough => (it :: c.1, c.2.1, c.2.2)
    | .pureConvert => (pureInputOf it :: c.1, c.2.1, c.2.2)

/-- The positions (from running index `i`) of the items satisfying `p`. -/
def idxOf (p : Item → Bool) : List Item → Nat → List Nat
  | [], _ => []
  | it :: rest, i =>
    if p it then i :: idxOf p rest (i + 1) else idxOf p rest (i + 1)

/-- A fetched record as it is stored back into the argument list by
`items[objref_indexes[index]] = result`. -/
def itemOfFetched : FetchedRec → Item
  | .read r => .objRead r
  | .notExist oid => .notExistRec oid

/-- `for index, result in enumerate(res_list):
items[objref_indexes[index]] = result`. -/
def setFetched : List Item → List Nat → List FetchedRec → List Item
  | items, [], _ => items
  | items, _, [] => items
  | items, t :: refs, f :: fs => setFetched (items.set t (itemOfFetched f)) refs fs

/-- Is the owner one of the kinds `_resolve_objects` matches? -/
def goodOwner (r : ObjectReadRec) : Bool :=
  match r.owner with
  | .addressOwner _ => true
  | .immutableOwner => true
  | .sharedOwner _ => true
  | .objectOwnerKind _ => false

/-- One iteration's effect on the `b_obj_arg` local binding: matched owners
bind a fresh `ObjectArg` (`SharedObjectReference.from_object_read` is
modelled from the spec with `Mutable` initially `False`, since an unpatched
reference defaults to an immutable borrow); an unmatched owner leaves the
binding whatever the previous iteration left it (unbound on the first). -/
def objArgStep (binding : Option ObjectArg) (r : ObjectReadRec) : Option ObjectArg :=
  match r.owner with
  | .addressOwner _ => some (.immOrOwnedObject ⟨r.object_id, r.version, r.digest⟩ none)
  | .immutableOwner => some (.immOrOwnedObject ⟨r.object_id, r.version, r.digest⟩ none)
  | .sharedOwner v => some (.sharedObject ⟨r.object_id, v, false⟩)
  | .objectOwnerKind _ => binding

/-- The `(BuilderArg, ObjectArg)` pair a well-owned record converts to. -/
def pairItemOf (r : ObjectReadRec) : Item :=
  .objPair (.object r.object_id) ((objArgStep none r).getD default)

/-- The `for tindex in objtup_indexes:` conversion loop of
`_resolve_objects`: accessing `.owner` on a record without that attribute
raises `AttributeError`; storing the pair with `b_obj_arg` never having been
bound raises `UnboundLocalError`. -/
def convertTuples : List Item → List Nat → Option ObjectArg → Except PyErr (List Item)
  | items, [], _ => .ok items
  | items, t :: rest, binding =>
    match items.get? t with
    | none => .error (.indexError "items")
    | some (.objRead r) =>
      match objArgStep binding r with
      | none => .error (.unboundLocalError "b_obj_arg")
      | some b =>
          convertTuples (items.set t (.objPair (.object r.object_id) b)) rest
            (objArgStep binding r)
    | some _ => .error (.attributeError "owner")

/-- Display form of an argument item inside an error message. -/
def itemStr : Item → String
  | .objectId oid => oid
  | .strVal s => s
  | _ => "object"

/-- `f"Unable to find object in set {[items[x] for x in objref_indexes]}"`. -/
def unableMsg (l : List Item) : String :=
  "Unable to find object in set [" ++ String.intercalate ", " (l.map itemStr) ++ "]"

/-- `_resolve_objects`: issues the single batched `get_objects_for` call for
the "needs fetch" positions (none when that list is empty), checks the
response length, stores the fetched records back at their original
positions, and runs the tuple-conversion loop over the pre-fetched plus the
newly fetched positions.  Returns the outcome together with the log of
batched fetch requests issued (each entry is the identifier list sent). -/
def resolveObjects (items : List Item) (refs tups : List Nat)
    (resp : Except String (List FetchedRec)) :
    Except PyErr (List Item) × List (List Item) :=
  match refs with
  | [] => (convertTuples items tups none, [])
  | _ :: _ =>
    let ids := refs.map (fun x => items.getD x (.objectId ""))
    match resp with
    | .error s => (.error (.valueError s), [ids])
    | .ok res_list =>
      if res_list.length = refs.length then
        (convertTuples (setFetched items refs res_list) (tups ++ refs) none, [ids])
      else
        (.error (.valueError (unableMsg ids)), [ids])

/-- `_resolve_arguments`: classification pass followed by
`_resolve_objects`. -/
def resolveArguments (items : List Item) (resp : Except String (List FetchedRec)) :
    Except PyErr (List Item) × List (List Item) :=
  let c := classifyFrom items 0
  resolveObjects c.1 c.2.1 c.2.2 resp

/-! ### List helper lemmas -/

lemma getQ_some_lt {α : Type} :
    ∀ (l : List α) (n : Nat) (a : α), l.get? n = some a → n < l.length
  | [], n, a, h => by simp [List.get?] at h
  | _ :: l, 0, a, _ => Nat.succ_pos _
  | _ :: l, n + 1, a, h =>
      Nat.succ_lt_succ (getQ_some_lt l n a h)

lemma getQ_set_self {α : Type} :
    ∀ (l : List α) (i : Nat) (v : α), i < l.length → (l.set i v).get? i = some v
  | [], i, v, h => absurd h (by simp)
  | _ :: l, 0, v, _ => rfl
  | _ :: l, i + 1, v, h => getQ_set_self l i v (Nat.lt_of_succ_lt_succ h)

lemma getQ_set_ne {α : Type} :
    ∀ (l : List α) (i j : Nat) (v : α), i ≠ j → (l.set i v).get? j = l.get? j
  | [], _, _, _, _ => rfl
  | _ :: l, 0, 0, v, h => absurd rfl h
  | _ :: l, 0, j + 1, v, _ => rfl
  | _ :: l, i + 1, 0, v, _ => rfl
  | _ :: l, i + 1, j + 1, v, h =>
      getQ_set_ne l i j v (fun hij => h (by rw [hij]))

/-! ### Lemmas about the classification pass -/

lemma idxOf_ge (p : Item → Bool) :
    ∀ (l : List Item) (i j : Nat), j ∈ idxOf p l i → i ≤ j := by
  intro l
  induction l with
  | nil => intro i j h; simp [idxOf] at h
  | cons it rest ih =>
    intro i j h
    by_cases hp : p it
    · simp [idxOf, hp] at h
      rcases h with h | h
      · omega
      · have := ih (i + 1) j h; omega
    · simp [idxOf, hp] at h
      have := ih (i + 1) j h; omega

lemma idxOf_nodup (p : Item → Bool) :
    ∀ (l : List Item) (i : Nat), (idxOf p l i).Nodup := by
  intro l
  induction l with
  | nil => intro i; simp [idxOf]
  | cons it rest ih =>
    intro i
    by_cases hp : p it
    · simp only [idxOf, hp, if_true]
      refine List.nodup_cons.mpr ⟨fun hmem => ?_, ih (i + 1)⟩
      have := idxOf_ge p rest (i + 1) i hmem
      omega
    · simp only [idxOf, hp, if_false]
      exact ih (i + 1)

lemma mem_idxOf (p : Item → Bool) :
    ∀ (l : List Item) (i j : Nat),
      j ∈ idxOf p l i ↔ ∃ k it, l.get? k = some it ∧ p it = true ∧ j = i + k := by
  intro l
  induction l with
  | nil =>
    intro i j
    simp [idxOf]
  | cons it rest ih =>
    intro i j
    by_cases hp : p it
    · simp only [idxOf, hp, if_true, List.mem_cons]
      constructor
      · rintro (rfl | h)
        · exact ⟨0, it, rfl, hp, by omega⟩
        · rcases (ih (i + 1) j).mp h with ⟨k, it2, hget, hit2, hj⟩
          exact ⟨k + 1, it2, hget, hit2, by omega⟩
      · rintro ⟨k, it2, hget, hit2, rfl⟩
        cases k with
        | zero => left; omega
        | succ k2 =>
          right
          exact (ih (i + 1) (i + (k2 + 1))).mpr ⟨k2, it2, hget, hit2, by omega⟩
    · simp only [idxOf, hp, if_false]
      constructor
      · intro h
        rcases (ih (i + 1) j).mp h with ⟨k, it2, hget, hit2, hj⟩
        exact ⟨k + 1, it2, hget, hit2, by omega⟩
      · rintro ⟨k, it2, hget, hit2, rfl⟩
        cases k with
        | zero =>
          have heq : it = it2 := by simpa using hget
          rw [← heq] at hit2
          rw [hit2] at hp
          exact absurd rfl hp
        | succ k2 =>
          exact (ih (i + 1) (i + (k2 + 1))).mpr ⟨k2, it2, hget, hit2, by omega⟩

lemma idxOf_length (p : Item → Bool) :
    ∀ (l : List Item) (i : Nat), (idxOf p l i).length = l.countP p := by
  intro l
  induction l with
  | nil => intro i; simp [idxOf]
  | cons it rest ih =>
    intro i
    by_cases hp : p it <;>
      simp [idxOf, hp, List.countP_cons, ih (i + 1)]

lemma idxOf_shift (p : Item → Bool) :
    ∀ (l : List Item) (i : Nat), idxOf p l (i + 1) = (idxOf p l i).map (· + 1) := by
  intro l
  induction l with
  | nil => intro i; rfl
  | cons it rest ih =>
    intro i
    by_cases hp : p it <;> simp [idxOf, hp, ih (i + 1), ih i]

lemma idxOf_get_rank (p : Item → Bool) :
    ∀ (l : List Item) (j : Nat) (it : Item) (i : Nat),
      l.get? j = some it → p it = true →
      (idxOf p l i).get? ((l.take j).countP p) = some (i + j) := by
  intro l
  induction l with
  | nil => intro j it i h; simp at h
  | cons h0 rest ih =>
    intro j it i hget hp
    cases j with
    | zero =>
      have heq : h0 = it := by simpa using hget
      subst heq
      simp [idxOf, hp]
    | succ k =>
      have hget2 : rest.get? k = some it := hget
      have hih := ih k it (i + 1) hget2 hp
      have harith : i + 1 + k = i + (k + 1) := by omega
      rw [harith] at hih
      have htake : ((h0 :: rest).take (k + 1)).countP p
          = (rest.take k).countP p + (if p h0 then 1 else 0) := by
        simp [List.take_succ_cons, List.countP_cons]
      by_cases hph : p h0
      · rw [htake]
        simp only [hph, if_true]
        simpa [idxOf, hph] using hih
      · rw [htake]
        simp only [hph, Bool.false_eq_true, if_false, Nat.add_zero]
        simpa [idxOf, hph] using hih

lemma countP_take_lt (p : Item → Bool) :
    ∀ (l : List Item) (j : Nat) (it : Item),
      l.get? j = some it → p it = true → (l.take j).countP p < l.countP p := by
  intro l
  induction l with
  | nil => intro j it h; simp at h
  | cons h0 rest ih =>
    intro j it hget hp
    cases j with
    | zero =>
      have heq : h0 = it := by simpa using hget
      subst heq
      simp [List.countP_cons, hp]
    | succ k =>
      have hlt := ih k it hget hp
      have htake : ((h0 :: rest).take (k + 1)).countP p
          = (rest.take k).countP p + (if p h0 then 1 else 0) := by
        simp [List.take_succ_cons, List.countP_cons]
      rw [htake, List.countP_cons]
      omega

lemma classifyFrom_eq :
    ∀ (l : List Item) (i : Nat),
      classifyFrom l i = (l.map pureFix, idxOf isFetchB l i, idxOf isTupB l i) := by
  intro l
  induction l with
  | nil => intro i; rfl
  | cons it rest ih =>
    intro i
    cases hc : itemClass it <;>
      simp [classifyFrom, idxOf, pureFix, isFetchB, isTupB, hc, ih (i + 1)]

lemma pureFix_of_fetch {it : Item} (h : isFetchB it = true) : pureFix it = it := by
  unfold isFetchB at h
  unfold pureFix
  rw [of_decide_eq_true h]
  simp

lemma pureFix_of_tup {it : Item} (h : isTupB it = true) : pureFix it = it := by
  unfold isTupB at h
  unfold pureFix
  rw [of_decide_eq_true h]
  simp

lemma pureFix_of_pass {it : Item} (h : itemClass it = ItemClass.passThrough) :
    pureFix it = it := by
  unfold pureFix
  rw [h]
  simp

lemma pureFix_of_pure {it : Item} (h : itemClass it = ItemClass.pureConvert) :
    pureFix it = pureInputOf it := by
  unfold pureFix
  rw [h]
  simp

lemma pureFix_objRead (r : ObjectReadRec) : pureFix (.objRead r) = .objRead r := by
  simp [pureFix, itemClass]

lemma getD_cons_succ2 (x : Item) (xs : List Item) (a : Nat) (d : Item) :
    (x :: xs).getD (a + 1) d = xs.getD a d := rfl

lemma map_getD_shift (x : Item) (xs : List Item) (d : Item) :
    ∀ (idxs : List Nat),
      (idxs.map (· + 1)).map (fun j => (x :: xs).getD j d) =
        idxs.map (fun j => xs.getD j d) := by
  intro idxs
  induction idxs with
  | nil => rfl
  | cons a rest ih =>
    simp only [List.map_cons]
    rw [ih, getD_cons_succ2]

lemma payload_spec :
    ∀ (l : List Item),
      (idxOf isFetchB l 0).map (fun x => (l.map pureFix).getD x (.objectId "")) =
        l.filter isFetchB := by
  intro l
  induction l with
  | nil => rfl
  | cons it rest ih =>
    have hshift : idxOf isFetchB rest 1 = (idxOf isFetchB rest 0).map (· + 1) :=
      idxOf_shift isFetchB rest 0
    by_cases hp : isFetchB it
    · have hidx : idxOf isFetchB (it :: rest) 0 = 0 :: idxOf isFetchB rest 1 := by
        simp [idxOf, hp]
      rw [hidx, hshift]
      simp only [List.map_cons, List.map_cons]
      rw [map_getD_shift (pureFix it) (rest.map pureFix) (Item.objectId "") _, ih]
      have hfil : (it :: rest).filter isFetchB = it :: rest.filter isFetchB := by
        simp [List.filter_cons, hp]
      rw [hfil]
      have hhead : (pureFix it :: rest.map pureFix).getD 0 (Item.objectId "") = pureFix it := rfl
      rw [hhead, pureFix_of_fetch hp]
    · have hidx : idxOf isFetchB (it :: rest) 0 = idxOf isFetchB rest 1 := by
        simp [idxOf, hp]
      rw [hidx, hshift]
      rw [show ((it :: rest).map pureFix) = pureFix it :: rest.map pureFix from rfl]
      rw [map_getD_shift (pureFix it) (rest.map pureFix) (Item.objectId "") _, ih]
      simp [List.filter_cons, hp]

/-! ### Lemmas about storing fetched records and the conversion loop -/

lemma setFetched_length :
    ∀ (refs : List Nat) (items : List Item) (fs : List FetchedRec),
      (setFetched items refs fs).length = items.length := by
  intro refs
  induction refs with
  | nil => intro items fs; cases fs <;> rfl
  | cons t rest ih =>
    intro items fs
    cases fs with
    | nil => rfl
    | cons f fs2 => simp [setFetched, ih]

lemma setFetched_get_notmem :
    ∀ (refs : List Nat) (items : List Item) (fs : List FetchedRec) (j : Nat),
      j ∉ refs → (setFetched items refs fs).get? j = items.get? j := by
  intro refs
  induction refs with
  | nil => intro items fs j _; cases fs <;> rfl
  | cons t rest ih =>
    intro items fs j hj
    cases fs with
    | nil => rfl
    | cons f fs2 =>
      have hjt : t ≠ j := fun h => hj (h ▸ List.mem_cons_self t rest)
      have hjr : j ∉ rest := fun h => hj (List.mem_cons_of_mem t h)
      simp only [setFetched]
      rw [ih _ fs2 j hjr, getQ_set_ne _ _ _ _ hjt]

lemma setFetched_get_at :
    ∀ (refs : List Nat) (items : List Item) (fs : List FetchedRec) (k j : Nat)
      (f : FetchedRec),
      refs.Nodup → refs.get? k = some j → fs.get? k = some f →
      j < items.length →
      (setFetched items refs fs).get? j = some (itemOfFetched f) := by
  intro refs
  induction refs with
  | nil => intro items fs k j f _ h; simp [List.get?] at h
  | cons t rest ih =>
    intro items fs k j f hnodup hrk hfk hlt
    cases fs with
    | nil => simp [List.get?] at hfk
    | cons f0 fs2 =>
      cases k with
      | zero =>
        have hjt : t = j := by simpa using hrk
        have hff : f0 = f := by simpa using hfk
        subst hjt
        subst hff
        have htrest : t ∉ rest := (List.nodup_cons.mp hnodup).1
        simp only [setFetched]
        rw [setFetched_get_notmem rest _ fs2 t htrest]
        exact getQ_set_self items t _ hlt
      | succ k2 =>
        simp only [setFetched]
        exact ih _ fs2 k2 j f (List.nodup_cons.mp hnodup).2 hrk hfk
          (by simpa using hlt)

lemma getQ_mem {α : Type} : ∀ (l : List α) (n : Nat) (a : α), l.get? n = some a → a ∈ l
  | [], _, _, h => by simp at h
  | x :: l, 0, a, h => by
      have hx : x = a := by simpa using h
      rw [← hx]
      exact List.mem_cons_self x l
  | x :: l, n + 1, a, h => List.mem_cons_of_mem x (getQ_mem l n a h)

lemma getQ_lt_some {α : Type} :
    ∀ (l : List α) (n : Nat), n < l.length → ∃ a, l.get? n = some a ∧ a ∈ l
  | [], _, h => absurd h (by simp)
  | a :: l, 0, _ => ⟨a, rfl, List.mem_cons_self a l⟩
  | a :: l, n + 1, h => by
      obtain ⟨b, hb, hm⟩ := getQ_lt_some l n (Nat.lt_of_succ_lt_succ h)
      exact ⟨b, hb, List.mem_cons_of_mem a hm⟩

lemma getQ_map (f : Item → Item) :
    ∀ (l : List Item) (n : Nat), (l.map f).get? n = (l.get? n).map f
  | [], n => by simp
  | x :: l, 0 => rfl
  | x :: l, n + 1 => getQ_map f l n

lemma objArgStep_good {r : ObjectReadRec} (h : goodOwner r = true)
    (binding : Option ObjectArg) :
    objArgStep binding r = objArgStep none r ∧ (objArgStep none r).isSome := by
  cases howner : r.owner <;> simp [objArgStep, goodOwner, howner] at h ⊢

lemma convertTuples_spec :
    ∀ (tups : List Nat) (items : List Item) (binding : Option ObjectArg),
      tups.Nodup →
      (∀ t ∈ tups, ∃ r, items.get? t = some (.objRead r) ∧ goodOwner r = true) →
      ∃ out, convertTuples items tups binding = .ok out ∧
        out.length = items.length ∧
        (∀ j, j ∉ tups → out.get? j = items.get? j) ∧
        (∀ t ∈ tups, ∀ r, items.get? t = some (.objRead r) →
          out.get? t = some (pairItemOf r)) := by
  intro tups
  induction tups with
  | nil =>
    intro items binding _ _
    exact ⟨items, rfl, rfl, fun _ _ => rfl, fun t ht => absurd ht (List.not_mem_nil t)⟩
  | cons t rest ih =>
    intro items binding hnodup hvalid
    obtain ⟨r, hget, hgood⟩ := hvalid t (List.mem_cons_self t rest)
    obtain ⟨hstep, hsome⟩ := objArgStep_good hgood binding
    obtain ⟨b, hb⟩ := Option.isSome_iff_exists.mp hsome
    have hpair : pairItemOf r = .objPair (.object r.object_id) b := by
      simp [pairItemOf, hb]
    have htlt : t < items.length := getQ_some_lt items t _ hget
    have htnotrest : t ∉ rest := (List.nodup_cons.mp hnodup).1
    have hrestnodup : rest.Nodup := (List.nodup_cons.mp hnodup).2
    have hb2 : objArgStep binding r = some b := by rw [hstep]; exact hb
    set items2 := items.set t (.objPair (.object r.object_id) b) with hitems2
    have hsame : ∀ t2, t2 ≠ t → items2.get? t2 = items.get? t2 := by
      intro t2 h2
      exact getQ_set_ne items t t2 _ (fun h => h2 h.symm)
    obtain ⟨out, hout, hlen, hother, hatt⟩ :=
      ih items2 (objArgStep binding r) hrestnodup (by
        intro t2 ht2
        obtain ⟨r2, hg2, hgo2⟩ := hvalid t2 (List.mem_cons_of_mem t ht2)
        refine ⟨r2, ?_, hgo2⟩
        rw [hsame t2 (fun h => htnotrest (h ▸ ht2))]
        exact hg2)
    have hout2 : convertTuples items2 rest (some b) = .ok out := by
      rw [← hb2]
      exact hout
    refine ⟨out, ?_, ?_, ?_, ?_⟩
    · simp only [convertTuples, hget, hb2]
      exact hout2
    · rw [hlen, hitems2, List.length_set]
    · intro j hj
      have hjt : j ≠ t := fun h => hj (h ▸ List.mem_cons_self t rest)
      have hjrest : j ∉ rest := fun h => hj (List.mem_cons_of_mem t h)
      rw [hother j hjrest, hsame j hjt]
    · intro t2 ht2 r2 hget2
      rcases List.mem_cons.mp ht2 with rfl | hmem
      · have : r2 = r := by
          rw [hget] at hget2
          cases hget2
          rfl
        subst this
        rw [hother t2 htnotrest, hitems2, getQ_set_self items t2 _ htlt, hpair]
      · refine hatt t2 hmem r2 ?_
        rw [hsame t2 (fun h => htnotrest (h ▸ hmem))]
        exact hget2


/-- C2 (amended): `_resolve_arguments` issues at most one batched object
fetch — none when no argument needs fetching — and the identifier list it
sends is exactly the unresolved arguments in their positional order, one
entry per occurrence (so as a set it is the distinct unresolved identifiers,
but a duplicated identifier is sent once per occurrence, not once); on
success the resolved output list preserves the original positional order:
position `j` of the output is the resolution of position `j` of the input,
with the `k`-th fetched record resolving the `k`-th unresolved position. -/
theorem resolve_arguments_single_batch_order
    (items : List Item) (rs : List FetchedRec)
    (hlen : rs.length = items.countP isFetchB)
    (hrs : ∀ f ∈ rs, ∃ r, f = FetchedRec.read r ∧ goodOwner r = true)
    (htup : ∀ it ∈ items, itemClass it = ItemClass.tupleConvert →
        ∃ r, it = Item.objRead r ∧ goodOwner r = true) :
    ∃ out, resolveArguments items (.ok rs) =
        (.ok out, if items.countP isFetchB = 0 then [] else [items.filter isFetchB]) ∧
      out.length = items.length ∧
      (∀ j it, items.get? j = some it →
        (isFetchB it = true →
          ∃ rr, rs.get? ((items.take j).countP isFetchB) = some (.read rr) ∧
            out.get? j = some (pairItemOf rr)) ∧
        (∀ r, it = Item.objRead r → out.get? j = some (pairItemOf r)) ∧
        (itemClass it = ItemClass.pureConvert → out.get? j = some (pureInputOf it)) ∧
        (itemClass it = ItemClass.passThrough → out.get? j = some it)) := by
  have hlen1 : (items.map pureFix).length = items.length := List.length_map _ _
  have hnodup_tups : (idxOf isTupB items 0).Nodup := idxOf_nodup _ items 0
  have hval_tups : ∀ t ∈ idxOf isTupB items 0,
      ∃ r, (items.map pureFix).get? t = some (.objRead r) ∧ goodOwner r = true := by
    intro t ht
    rcases (mem_idxOf isTupB items 0 t).mp ht with ⟨k, it, hget, hit, hk⟩
    have hk0 : t = k := by omega
    subst hk0
    obtain ⟨r, hr, hgood⟩ := htup it (getQ_mem items t it hget) (of_decide_eq_true hit)
    refine ⟨r, ?_, hgood⟩
    rw [getQ_map pureFix items t, hget]
    simp [pureFix_of_tup hit, hr, pureFix_objRead]
  have hmem_class : ∀ (p : Item → Bool) (j : Nat) (it : Item),
      items.get? j = some it → j ∈ idxOf p items 0 → p it = true := by
    intro p j it hget hmem
    rcases (mem_idxOf p items 0 j).mp hmem with ⟨k, it2, hget2, hit2, hk⟩
    have hkj : k = j := by omega
    subst hkj
    rw [hget] at hget2
    injection hget2 with h2
    rw [h2]
    exact hit2
  cases hre : idxOf isFetchB items 0 with
  | nil =>
    have hcount : items.countP isFetchB = 0 := by
      rw [← idxOf_length isFetchB items 0, hre]
      rfl
    obtain ⟨out, hconv, hlen2, hother, hat⟩ :=
      convertTuples_spec (idxOf isTupB items 0) (items.map pureFix) none
        hnodup_tups hval_tups
    refine ⟨out, ?_, ?_, ?_⟩
    · simp only [resolveArguments]
      rw [classifyFrom_eq items 0, hre]
      simp only [resolveObjects]
      rw [hconv, hcount]
      simp
    · rw [hlen2, hlen1]
    · intro j it hget
      refine ⟨?_, ?_, ?_, ?_⟩
      · intro hfetch
        exfalso
        have hmem : j ∈ idxOf isFetchB items 0 :=
          (mem_idxOf isFetchB items 0 j).mpr ⟨j, it, hget, hfetch, by omega⟩
        rw [hre] at hmem
        exact absurd hmem (List.not_mem_nil j)
      · intro r hr
        have htupit : isTupB it = true := by rw [hr]; rfl
        have hmem : j ∈ idxOf isTupB items 0 :=
          (mem_idxOf isTupB items 0 j).mpr ⟨j, it, hget, htupit, by omega⟩
        refine hat j hmem r ?_
        rw [getQ_map pureFix items j, hget]
        simp [pureFix_of_tup htupit, hr, pureFix_objRead]
      · intro hpure
        have hnot : j ∉ idxOf isTupB items 0 := by
          intro hmem
          have h3 := of_decide_eq_true (hmem_class isTupB j it hget hmem)
          rw [hpure] at h3
          exact absurd h3 (by decide)
        rw [hother j hnot, getQ_map pureFix items j, hget]
        simp [pureFix_of_pure hpure]
      · intro hpass
        have hnot : j ∉ idxOf isTupB items 0 := by
          intro hmem
          have h3 := of_decide_eq_true (hmem_class isTupB j it hget hmem)
          rw [hpass] at h3
          exact absurd h3 (by decide)
        rw [hother j hnot, getQ_map pureFix items j, hget]
        simp [pureFix_of_pass hpass]
  | cons r0 rt =>
    have hcount : items.countP isFetchB = rt.length + 1 := by
      rw [← idxOf_length isFetchB items 0, hre]
      rfl
    have hcount0 : ¬ items.countP isFetchB = 0 := by omega
    have hids : (r0 :: rt).map (fun x => (items.map pureFix).getD x (.objectId "")) =
        items.filter isFetchB := by
      rw [← hre]
      exact payload_spec items
    have hlenrs : rs.length = (r0 :: rt).length := by
      rw [hlen, ← idxOf_length isFetchB items 0, hre]
    have hrefs_nodup : (r0 :: rt).Nodup := by
      rw [← hre]
      exact idxOf_nodup _ items 0
    have hdisj : ∀ a, a ∈ idxOf isTupB items 0 → a ∉ (r0 :: rt) := by
      intro a ha hb
      rw [← hre] at hb
      rcases (mem_idxOf isTupB items 0 a).mp ha with ⟨k, it, hget, hit, hk⟩
      have hka : k = a := by omega
      subst hka
      have hfet := hmem_class isFetchB k it hget hb
      have h3 := of_decide_eq_true hit
      have h4 := of_decide_eq_true hfet
      rw [h3] at h4
      exact absurd h4 (by decide)
    have hnodup_all : (idxOf isTupB items 0 ++ (r0 :: rt)).Nodup :=
      List.Nodup.append hnodup_tups hrefs_nodup (fun a ha hb => hdisj a ha hb)
    have hrefs_lt : ∀ t, t ∈ (r0 :: rt) → t < items.length := by
      intro t ht
      rw [← hre] at ht
      rcases (mem_idxOf isFetchB items 0 t).mp ht with ⟨k, it, hget, hit, hk⟩
      have : t = k := by omega
      subst this
      exact getQ_some_lt items t it hget
    have hval_all : ∀ t ∈ idxOf isTupB items 0 ++ (r0 :: rt),
        ∃ r, (setFetched (items.map pureFix) (r0 :: rt) rs).get? t =
            some (.objRead r) ∧ goodOwner r = true := by
      intro t ht
      rcases List.mem_append.mp ht with htm | hfm
      · obtain ⟨r, hg, hgo⟩ := hval_tups t htm
        refine ⟨r, ?_, hgo⟩
        rw [setFetched_get_notmem (r0 :: rt) _ rs t (hdisj t htm), hg]
      · obtain ⟨k, hk⟩ := List.get?_of_mem hfm
        have hklt : k < (r0 :: rt).length := getQ_some_lt _ k t hk
        have hklt2 : k < rs.length := by rw [hlenrs]; exact hklt
        obtain ⟨f, hf, hfm2⟩ := getQ_lt_some rs k hklt2
        obtain ⟨rr, hfr, hgo⟩ := hrs f hfm2
        refine ⟨rr, ?_, hgo⟩
        have htlt : t < (items.map pureFix).length := by
          rw [hlen1]
          exact hrefs_lt t hfm
        rw [setFetched_get_at (r0 :: rt) (items.map pureFix) rs k t f
          hrefs_nodup hk hf htlt, hfr]
        rfl
    obtain ⟨out, hconv, hlen2, hother, hat⟩ :=
      convertTuples_spec (idxOf isTupB items 0 ++ (r0 :: rt))
        (setFetched (items.map pureFix) (r0 :: rt) rs) none hnodup_all hval_all
    refine ⟨out, ?_, ?_, ?_⟩
    · simp only [resolveArguments]
      rw [classifyFrom_eq items 0, hre]
      simp only [resolveObjects]
      rw [if_pos hlenrs, hconv, hids, if_neg hcount0]
    · rw [hlen2, setFetched_length, hlen1]
    · intro j it hget
      have hsetlen : j < (items.map pureFix).length → True := fun _ => trivial
      refine ⟨?_, ?_, ?_, ?_⟩
      · intro hfetch
        have hrank := idxOf_get_rank isFetchB items j it 0 hget hfetch
        rw [hre, Nat.zero_add] at hrank
        have hclt : (items.take j).countP isFetchB < rs.length := by
          rw [hlen]
          exact countP_take_lt isFetchB items j it hget hfetch
        obtain ⟨f, hf, hfm2⟩ := getQ_lt_some rs _ hclt
        obtain ⟨rr, hfr, hgo⟩ := hrs f hfm2
        refine ⟨rr, by rw [hf, hfr], ?_⟩
        have hjmem : j ∈ (r0 :: rt) := getQ_mem _ _ _ hrank
        have hjlt : j < (items.map pureFix).length := by
          rw [hlen1]
          exact hrefs_lt j hjmem
        have hset := setFetched_get_at (r0 :: rt) (items.map pureFix) rs
          ((items.take j).countP isFetchB) j f hrefs_nodup hrank hf hjlt
        refine hat j (List.mem_append.mpr (Or.inr hjmem)) rr ?_
        rw [hset, hfr]
        rfl
      · intro r hr
        have htupit : isTupB it = true := by rw [hr]; rfl
        have hmem : j ∈ idxOf isTupB items 0 :=
          (mem_idxOf isTupB items 0 j).mpr ⟨j, it, hget, htupit, by omega⟩
        refine hat j (List.mem_append.mpr (Or.inl hmem)) r ?_
        rw [setFetched_get_notmem (r0 :: rt) _ rs j (hdisj j hmem)]
        rw [getQ_map pureFix items j, hget]
        simp [pureFix_of_tup htupit, hr, pureFix_objRead]
      · intro hpure
        have hnott : j ∉ idxOf isTupB items 0 := by
          intro hmem
          have h3 := of_decide_eq_true (hmem_class isTupB j it hget hmem)
          rw [hpure] at h3
          exact absurd h3 (by decide)
        have hnotf : j ∉ (r0 :: rt) := by
          intro hmem
          rw [← hre] at hmem
          have h3 := of_decide_eq_true (hmem_class isFetchB j it hget hmem)
          rw [hpure] at h3
          exact absurd h3 (by decide)
        have hnotall : j ∉ idxOf isTupB items 0 ++ (r0 :: rt) := by
          intro hmem
          rcases List.mem_append.mp hmem with h | h
          · exact hnott h
          · exact hnotf h
        rw [hother j hnotall, setFetched_get_notmem (r0 :: rt) _ rs j hnotf]
        rw [getQ_map pureFix items j, hget]
        simp [pureFix_of_pure hpure]
      · intro hpass
        have hnott : j ∉ idxOf isTupB items 0 := by
          intro hmem
          have h3 := of_decide_eq_true (hmem_class isTupB j it hget hmem)
          rw [hpass] at h3
          exact absurd h3 (by decide)
        have hnotf : j ∉ (r0 :: rt) := by
          intro hmem
          rw [← hre] at hmem
          have h3 := of_decide_eq_true (hmem_class isFetchB j it hget hmem)
          rw [hpass] at h3
          exact absurd h3 (by decide)
        have hnotall : j ∉ idxOf isTupB items 0 ++ (r0 :: rt) := by
          intro hmem
          rcases List.mem_append.mp hmem with h | h
          · exact hnott h
          · exact hnotf h
        rw [hother j hnotall, setFetched_get_notmem (r0 :: rt) _ rs j hnotf]
        rw [getQ_map pureFix items j, hget]
        simp [pureFix_of_pass hpass]

/-! ## Move-call target cache and builder methods -/

/-- Lookup in the `_MC_RESULT_CACHE` association list. -/
def lookupCache : List (String × FnMeta) → String → Option FnMeta
  | [], _ => none
  | (k, v) :: rest, t => if k = t then some v else lookupCache rest t

/-- `_move_call_target_cache`: read-through memo keyed by the exact target
string; on a miss, `metaFor` is the `GetFunction` response of the execution
service (`none` when no matching function exists, in which case
`ValueError(f"Unable to find target: {target}")` is raised). -/
def targetLookup (st : TxState) (metaFor : String → Option FnMeta)
    (target : String) : Except PyErr (FnMeta × TxState) :=
  match lookupCache st.cache target with
  | some fm => .ok (fm, st)
  | none =>
    match metaFor target with
    | some fm => .ok (fm, { st with cache := st.cache ++ [(target, fm)] })
    | none => .error (.valueError ("Unable to find target: " ++ target))

/-- The per-position mutability patch of `move_call` / `_move_call`:
`hasattr(parm, "is_mutable") and parm.is_mutable and isinstance(arg, tuple)`
sets `arg[1].value.Mutable = True`. -/
def patchOne (parm : FnParam) (arg : Item) : Item :=
  match parm.is_mutable, arg with
  | some true, .objPair b o => .objPair b o.setMutable
  | _, _ => arg

/-- `for index, arg in enumerate(arguments): parm = parameters[index] ...`:
patches each position, raising `IndexError` when the argument list is longer
than the declared parameter list. -/
def patchLoop : List Item → List FnParam → Except PyErr (List Item)
  | [], _ => .ok []
  | _ :: _, [] => .error (.indexError "parameters")
  | arg :: rest, parm :: parms =>
    match patchLoop rest parms with
    | .error e => .error e
    | .ok out => .ok (patchOne parm arg :: out)

/-- Modelled from the spec: the command builder appends each built command to
the append-only log and returns a `Result` handle indexed by the command's
position. -/
def appendCommand (st : TxState) (c : Command) : Argument × TxState :=
  (.result st.commands.length, { st with commands := st.commands ++ [c] })

/-- `move_call`: asserts not executed, resolves the target through the cache,
resolves the arguments (issuing at most one batched object fetch, whose
request log is returned), patches mutable object arguments and appends the
MoveCall command.  Errors leave the already-accumulated commands intact. -/
def move_call (st : TxState) (metaFor : String → Option FnMeta)
    (target : String) (arguments : List Item) (type_arguments : List String)
    (fetchResp : Except String (List FetchedRec)) :
    Except PyErr Argument × TxState × List (List Item) :=
  if st.executed then
    (.error (.assertionError "Transaction already executed"), st, [])
  else
    match targetLookup st metaFor target with
    | .error e => (.error e, st, [])
    | .ok (fm, st1) =>
      if arguments.isEmpty then
        let (a, st2) := appendCommand st1 (.moveCall target [] type_arguments fm.returnsCount)
        (.ok a, st2, [])
      else
        match resolveArguments arguments fetchResp with
        | (.error e, log) => (.error e, st1, log)
        | (.ok resolved, log) =>
          match patchLoop resolved fm.parameters with
          | .error e => (.error e, st1, log)
          | .ok patched =>
            let (a, st2) := appendCommand st1 (.moveCall target patched type_arguments fm.returnsCount)
            (.ok a, st2, log)

/-- `_move_call`: the internal variant taking already-prepared arguments; it
has no executed-assertion and performs no resolution, only the mutability
patch and the command append. -/
def int_move_call (st : TxState) (metaFor : String → Option FnMeta)
    (target : String) (arguments : List Item) (type_arguments : List String) :
    Except PyErr Argument × TxState :=
  match targetLookup st metaFor target with
  | .error e => (.error e, st)
  | .ok (fm, st1) =>
    if arguments.isEmpty then
      appendCommand st1 (.moveCall target arguments type_arguments fm.returnsCount)
        |> fun (a, st2) => (.ok a, st2)
    else
      match patchLoop arguments fm.parameters with
      | .error e => (.error e, st1)
      | .ok patched =>
        appendCommand st1 (.moveCall target patched type_arguments fm.returnsCount)
          |> fun (a, st2) => (.ok a, st2)

/-- Modelled from the spec: class names statically known to encode as Pure
values (`_PURE_CANDIDATES` of the base transaction class). -/
def PURE_CANDIDATES : List String :=
  ["bool", "int", "str", "bytes", "SuiBoolean", "SuiInteger", "SuiString",
   "SuiU8", "SuiU16", "SuiU32", "SuiU64", "SuiU128", "SuiU256", "SuiAddress"]

/-- `_first_non_argument_type`: the first element that is not a protocol
`Argument` (`None` when every element is one). -/
def firstNonArgument : List Item → Option Item
  | [] => none
  | .protoArg _ :: rest => firstNonArgument rest
  | it :: _ => some it

/-- `for item in items: ... assert item_class == first_class`. -/
def homogeneityCheck : List Item → String → Except PyErr Unit
  | [], _ => .ok ()
  | it :: rest, fc =>
    if it.className = "Argument" then homogeneityCheck rest fc
    else if it.className = fc then homogeneityCheck rest fc
    else .error (.assertionError ("Expected " ++ fc ++ " found " ++ it.className))

/-- `make_move_vector`: rejects an empty list; when the first non-`Argument`
element is truthy it rejects pure-candidate element types, enforces
homogeneity, resolves the arguments and appends the vector command; when
every element is an `Argument` — or the first non-`Argument` element is
falsy, because the source tests `if first_item:` instead of
`if first_item is not None:` — it appends the vector command on the raw,
unresolved items. -/
def make_move_vector (st : TxState) (items : List Item)
    (item_type : Option String) (fetchResp : Except String (List FetchedRec)) :
    Except PyErr Argument × TxState × List (List Item) :=
  match items with
  | [] => (.error (.valueError "make_vector requires a non-empty list"), st, [])
  | _ :: _ =>
    match firstNonArgument items with
    | some first_item =>
      if first_item.truthy then
        let first_class := first_item.className
        if first_class ≠ "Argument" ∧ first_class ∈ PURE_CANDIDATES then
          (.error (.valueError ("make_move_vec is for Objects only. Found type " ++ first_class)), st, [])
        else
          match homogeneityCheck items first_class with
          | .error e => (.error e, st, [])
          | .ok _ =>
            match resolveArguments items fetchResp with
            | (.error e, log) => (.error e, st, log)
            | (.ok resolved, log) =>
              let (a, st2) := appendCommand st (.makeMoveVec item_type resolved)
              (.ok a, st2, log)
      else
        let (a, st2) := appendCommand st (.makeMoveVec item_type items)
        (.ok a, st2, [])
    | none =>
      let (a, st2) := appendCommand st (.makeMoveVec item_type items)
      (.ok a, st2, [])

/-- String coercion applied by the coin-handling builder calls:
`coin if isinstance(coin, (...)) else ObjectID(coin)`. -/
def coerceToObjectId : Item → Item
  | .strVal s => .objectId s
  | it => it

/-- `split_coin`: asserts not executed, encodes the amounts as Pure inputs,
resolves the coin and appends the SplitCoin command. -/
def split_coin (st : TxState) (coin : Item) (amounts : List Nat)
    (fetchResp : Except String (List FetchedRec)) :
    Except PyErr Argument × TxState × List (List Item) :=
  if st.executed then
    (.error (.assertionError "Transaction already executed"), st, [])
  else
    let amtInputs := amounts.map (fun x => Item.pureInput (.u64 x))
    match resolveArguments [coerceToObjectId coin] fetchResp with
    | (.error e, log) => (.error e, st, log)
    | (.ok resolved, log) =>
      let (a, st2) := appendCommand st (.splitCoin (resolved.getD 0 (.objectId "")) amtInputs)
      (.ok a, st2, log)

/-- `merge_coins`: asserts not executed, resolves the destination coin and
then the source coins, and appends the MergeCoins command. -/
def merge_coins (st : TxState) (merge_to : Item) (merge_from : List Item)
    (resp1 resp2 : Except String (List FetchedRec)) :
    Except PyErr Argument × TxState × List (List Item) :=
  if st.executed then
    (.error (.assertionError "Transaction already executed"), st, [])
  else
    match resolveArguments [coerceToObjectId merge_to] resp1 with
    | (.error e, log1) => (.error e, st, log1)
    | (.ok res1, log1) =>
      let mt := res1.getD 0 (.objectId "")
      let parm_list := merge_from.map coerceToObjectId
      match resolveArguments parm_list resp2 with
      | (.error e, log2) => (.error e, st, log1 ++ log2)
      | (.ok res2, log2) =>
        let (a, st2) := appendCommand st (.mergeCoins mt res2)
        (.ok a, st2, log1 ++ log2)

/-- `transfer_objects`: asserts not executed, coerces and resolves the
transfer list and appends the TransferObjects command with the recipient as
a Pure input. -/
def transfer_objects (st : TxState) (transfers : List Item)
    (recipient : String) (fetchResp : Except String (List FetchedRec)) :
    Except PyErr Argument × TxState × List (List Item) :=
  if st.executed then
    (.error (.assertionError "Transaction already executed"), st, [])
  else
    let coerced := transfers.map coerceToObjectId
    match resolveArguments coerced fetchResp with
    | (.error e, log) => (.error e, st, log)
    | (.ok resolved, log) =>
      let (a, st2) := appendCommand st (.transferObjects (.pureInput (.addr recipient)) resolved)
      (.ok a, st2, log)

/-- Modelled from the spec: the move-call targets of the split-and-return
expansion (`_SPLIT_AND_RETURN`, `_VECTOR_REMOVE_INDEX`,
`_VECTOR_DESTROY_EMPTY` of the base transaction class). -/
def SPLIT_AND_RETURN : String := "0x2::coin::divide_into_n"

/-- Modelled from the spec: the vector-remove-by-index auxiliary target. -/
def VECTOR_REMOVE_INDEX : String := "0x1::vector::remove"

/-- Modelled from the spec: the vector-destroy-empty auxiliary target. -/
def VECTOR_DESTROY_EMPTY : String := "0x1::vector::destroy_empty"

/-- Count the occurrences of a character in a string (`coin_type.count`). -/
def countChar (s : String) (c : Char) : Nat :=
  s.toList.countP (fun x => x = c)

/-- The itemization type tag of `split_coin_and_return`: a bare coin type is
wrapped as `0x2::coin::Coin<...>`; a type already carrying generics is used
as is. -/
def coinTypeTag (coin_type : String) : String :=
  if countChar coin_type '<' = 0 then "0x2::coin::Coin<" ++ coin_type ++ ">"
  else coin_type

/-- The itemization loop of `split_coin_and_return`: `split_count - 1`
vector-remove-by-index calls accumulating the extracted coins, then the
single vector-destroy-empty call, returning the accumulated new coins. -/
def removeLoop (metaFor : String → Option FnMeta) (result_vector : Argument)
    (tag : String) : Nat → TxState → List Argument →
    Except PyErr (List Argument) × TxState
  | 0, st, acc =>
    match int_move_call st metaFor VECTOR_DESTROY_EMPTY
        [.protoArg result_vector] [tag] with
    | (.error e, st1) => (.error e, st1)
    | (.ok _, st1) => (.ok acc, st1)
  | k + 1, st, acc =>
    match int_move_call st metaFor VECTOR_REMOVE_INDEX
        [.protoArg result_vector, .pureInput (.u64 0)] [tag] with
    | (.error e, st1) => (.error e, st1)
    | (.ok a, st1) => removeLoop metaFor result_vector tag k st1 (acc ++ [a])

/-- `split_coin_and_return`: asserts not executed, rejects
`split_count < 2`, resolves the coin and the encoded count, performs the
divide-into-n move call, then `split_count - 1` vector-remove-by-index calls
and one final vector-destroy-empty call, returning the extracted coins. -/
def split_coin_and_return (st : TxState) (metaFor : String → Option FnMeta)
    (coin : Item) (split_count : Nat) (coin_type : String)
    (fetchResp : Except String (List FetchedRec)) :
    Except PyErr (List Argument) × TxState :=
  if st.executed then
    (.error (.assertionError "Transaction already executed"), st)
  else if split_count < 2 then
    (.error (.valueError ("Split count " ++ toString split_count ++ " must be greater than 1")), st)
  else
    match resolveArguments [coerceToObjectId coin, .pureInput (.u64 split_count)] fetchResp with
    | (.error e, _) => (.error e, st)
    | (.ok resolved, _) =>
      match int_move_call st metaFor SPLIT_AND_RETURN resolved [coin_type] with
      | (.error e, st1) => (.error e, st1)
      | (.ok result_vector, st1) =>
        removeLoop metaFor result_vector (coinTypeTag coin_type)
          (split_count - 1) st1 []

/-- C2 counterexample: with the same raw identifier at two argument
positions, the single batched fetch request sends that identifier twice —
once per occurrence — not once, so the identifier list sent is not the
distinct-identifier list. -/
theorem duplicate_identifier_sent_per_occurrence :
    (resolveArguments [.objectId "0x5", .objectId "0x5", .protoArg .gasCoin]
        (.ok [.read ⟨"0x5", 1, 2, .addressOwner "0xa"⟩,
              .read ⟨"0x5", 1, 2, .addressOwner "0xa"⟩])).2 =
      [[.objectId "0x5", .objectId "0x5"]] ∧
    [Item.objectId "0x5", Item.objectId "0x5"].count (Item.objectId "0x5") = 2 ∧
    [Item.objectId "0x5", Item.objectId "0x5"] ≠ [Item.objectId "0x5"] :=
  ⟨rfl, by decide, by decide⟩

/-- Concrete input realizing the spec's batch-fetch example: five arguments,
three raw identifiers (two distinct) and two already resolved. -/
def wItems : List Item :=
  [.objectId "0xa", .objectId "0xb", .objectId "0xa", .protoArg .gasCoin,
   .objRead ⟨"0xe", 9, 9, .sharedOwner 4⟩]

/-- Fetch response for `wItems`: one record per unresolved occurrence. -/
def wRecs : List FetchedRec :=
  [.read ⟨"0xa", 1, 1, .addressOwner "0xo"⟩,
   .read ⟨"0xb", 2, 2, .sharedOwner 7⟩,
   .read ⟨"0xa", 1, 1, .addressOwner "0xo"⟩]

/-- Witness for `resolve_arguments_single_batch_order` at the spec's
five-argument example. -/
theorem resolve_arguments_single_batch_order_witness :
    ∃ out, resolveArguments wItems (.ok wRecs) =
        (.ok out, if wItems.countP isFetchB = 0 then [] else [wItems.filter isFetchB]) ∧
      out.length = wItems.length ∧
      (∀ j it, wItems.get? j = some it →
        (isFetchB it = true →
          ∃ rr, wRecs.get? ((wItems.take j).countP isFetchB) = some (.read rr) ∧
            out.get? j = some (pairItemOf rr)) ∧
        (∀ r, it = Item.objRead r → out.get? j = some (pairItemOf r)) ∧
        (itemClass it = ItemClass.pureConvert → out.get? j = some (pureInputOf it)) ∧
        (itemClass it = ItemClass.passThrough → out.get? j = some it)) :=
  resolve_arguments_single_batch_order wItems wRecs (by decide)
    (by
      intro f hf
      simp only [wRecs, List.mem_cons, List.not_mem_nil, or_false] at hf
      rcases hf with rfl | rfl | rfl
      · exact ⟨_, rfl, rfl⟩
      · exact ⟨_, rfl, rfl⟩
      · exact ⟨_, rfl, rfl⟩)
    (by
      intro it hit hc
      simp only [wItems, List.mem_cons, List.not_mem_nil, or_false] at hit
      rcases hit with rfl | rfl | rfl | rfl | rfl
      · simp [itemClass] at hc
      · simp [itemClass] at hc
      · simp [itemClass] at hc
      · simp [itemClass] at hc
      · exact ⟨⟨"0xe", 9, 9, .sharedOwner 4⟩, rfl, rfl⟩)

/-- C10: a fetched object record is converted to an object argument exactly
when its owner is `AddressOwner` or `ImmutableOwner` (giving the
`ImmOrOwnedObject` tag) or `SharedOwner` (giving the `SharedObject` tag);
for any other owner kind no `ObjectArg` is constructed and, with no earlier
binding, the conversion loop fails with the unbound `b_obj_arg` error — so
the conversion succeeds exactly under the precondition that the owner is one
of those three kinds. -/
theorem owner_kind_conversion_classification (r : ObjectReadRec) :
    (∀ a, r.owner = .addressOwner a →
      objArgStep none r = some (.immOrOwnedObject ⟨r.object_id, r.version, r.digest⟩ none)) ∧
    (r.owner = .immutableOwner →
      objArgStep none r = some (.immOrOwnedObject ⟨r.object_id, r.version, r.digest⟩ none)) ∧
    (∀ v, r.owner = .sharedOwner v →
      objArgStep none r = some (.sharedObject ⟨r.object_id, v, false⟩)) ∧
    (∀ pr, r.owner = .objectOwnerKind pr →
      objArgStep none r = none ∧
      convertTuples [.objRead r] [0] none = .error (.unboundLocalError "b_obj_arg")) ∧
    ((objArgStep none r).isSome ↔ goodOwner r = true) ∧
    (goodOwner r = true →
      convertTuples [.objRead r] [0] none = .ok [pairItemOf r]) := by
  cases ho : r.owner <;>
    simp [objArgStep, goodOwner, convertTuples, pairItemOf, ho, List.set]

/-- Witness for `owner_kind_conversion_classification`: a shared record
converts to a `SharedObject` argument; an object-owned record converts to
nothing and makes the loop fail with the unbound-variable error. -/
theorem owner_kind_conversion_classification_witness :
    objArgStep none ⟨"0xs", 3, 4, .sharedOwner 7⟩ =
      some (.sharedObject ⟨"0xs", 7, false⟩) ∧
    objArgStep none ⟨"0xw", 1, 2, .objectOwnerKind "0xp"⟩ = none ∧
    convertTuples [.objRead ⟨"0xw", 1, 2, .objectOwnerKind "0xp"⟩] [0] none =
      .error (.unboundLocalError "b_obj_arg") :=
  ⟨(owner_kind_conversion_classification ⟨"0xs", 3, 4, .sharedOwner 7⟩).2.2.1 7 rfl,
   ((owner_kind_conversion_classification ⟨"0xw", 1, 2, .objectOwnerKind "0xp"⟩).2.2.2.1 "0xp" rfl).1,
   ((owner_kind_conversion_classification ⟨"0xw", 1, 2, .objectOwnerKind "0xp"⟩).2.2.2.1 "0xp" rfl).2⟩

/-! ## Fetch-failure behaviour (C3) -/

lemma targetLookup_preserves (st : TxState) (metaFor : String → Option FnMeta)
    (t : String) (fm : FnMeta) (st1 : TxState)
    (h : targetLookup st metaFor t = .ok (fm, st1)) :
    st1.commands = st.commands ∧ st1.executed = st.executed ∧
      st1.objectsRegistry = st.objectsRegistry := by
  unfold targetLookup at h
  cases hc : lookupCache st.cache t with
  | some fm2 =>
    rw [hc] at h
    injection h with h2
    injection h2 with h3 h4
    rw [← h4]
    exact ⟨rfl, rfl, rfl⟩
  | none =>
    rw [hc] at h
    cases hm : metaFor t with
    | some fm2 =>
      rw [hm] at h
      injection h with h2
      injection h2 with h3 h4
      rw [← h4]
      exact ⟨rfl, rfl, rfl⟩
    | none =>
      rw [hm] at h
      exact absurd h (by simp)

lemma countP_eq_zero_idxOf (p : Item → Bool) (l : List Item)
    (h : ∀ it ∈ l, p it ≠ true) : idxOf p l 0 = [] := by
  have hlen : (idxOf p l 0).length = l.countP p := idxOf_length p l 0
  have hz : l.countP p = 0 := by
    rw [List.countP_eq_zero]
    intro a ha
    exact fun hp => h a ha hp
  rw [hz] at hlen
  exact List.length_eq_zero.mp hlen

/-- C3 (amended): when the batched fetch returns fewer (or more) records
than unresolved identifiers were requested, the whole resolution fails with
a ValueError naming the full requested identifier list, no resolved
argument list is produced, and `move_call` leaves the already-accumulated
commands intact; when a returned record is typed nonexistent, the
resolution also fails — while interpreting the record's missing owner
attribute, so with an AttributeError that does not name the identifiers —
again without accepting a partial argument list and leaving the commands
intact. -/
theorem fetch_shortfall_aborts_resolution (st : TxState)
    (metaFor : String → Option FnMeta) (target : String) (args : List Item)
    (tas : List String) (rs : List FetchedRec) (fm : FnMeta) (st1 : TxState)
    (hx : st.executed = false)
    (hne : args ≠ [])
    (hmeta : targetLookup st metaFor target = .ok (fm, st1)) :
    (rs.length ≠ args.countP isFetchB → args.countP isFetchB ≠ 0 →
      move_call st metaFor target args tas (.ok rs) =
        (.error (.valueError (unableMsg (args.filter isFetchB))), st1,
          [args.filter isFetchB]) ∧
      st1.commands = st.commands) ∧
    (∀ oid rt2, rs = FetchedRec.notExist oid :: rt2 →
      rs.length = args.countP isFetchB →
      (∀ it ∈ args, itemClass it ≠ ItemClass.tupleConvert) →
      move_call st metaFor target args tas (.ok rs) =
        (.error (.attributeError "owner"), st1, [args.filter isFetchB]) ∧
      st1.commands = st.commands) := by
  have hpres := targetLookup_preserves st metaFor target fm st1 hmeta
  have hne2 : args.isEmpty = false := by
    cases args with
    | nil => exact absurd rfl hne
    | cons a l => rfl
  constructor
  · intro hmis hcf
    refine ⟨?_, hpres.1⟩
    have hrefs_ne : idxOf isFetchB args 0 ≠ [] := by
      intro hnil
      have := idxOf_length isFetchB args 0
      rw [hnil] at this
      exact hcf this.symm
    cases hre : idxOf isFetchB args 0 with
    | nil => exact absurd hre hrefs_ne
    | cons r0 rt =>
      have hids : (r0 :: rt).map (fun x => (args.map pureFix).getD x (.objectId "")) =
          args.filter isFetchB := by
        rw [← hre]
        exact payload_spec args
      have hlenne : ¬ rs.length = (r0 :: rt).length := by
        rw [← hre, idxOf_length isFetchB args 0]
        exact hmis
      simp only [move_call, hx, Bool.false_eq_true, if_false, hmeta, hne2]
      simp only [resolveArguments]
      rw [classifyFrom_eq args 0, hre]
      simp only [resolveObjects]
      rw [if_neg hlenne, hids]
  · intro oid rt2 hrs hlen htups
    refine ⟨?_, hpres.1⟩
    have htups_nil : idxOf isTupB args 0 = [] := by
      apply countP_eq_zero_idxOf
      intro it hit hp
      exact htups it hit (of_decide_eq_true hp)
    have hcf : args.countP isFetchB ≠ 0 := by
      rw [← hlen, hrs]
      simp
    have hrefs_ne : idxOf isFetchB args 0 ≠ [] := by
      intro hnil
      have := idxOf_length isFetchB args 0
      rw [hnil] at this
      exact hcf this.symm
    cases hre : idxOf isFetchB args 0 with
    | nil => exact absurd hre hrefs_ne
    | cons r0 rt =>
      have hids : (r0 :: rt).map (fun x => (args.map pureFix).getD x (.objectId "")) =
          args.filter isFetchB := by
        rw [← hre]
        exact payload_spec args
      have hleneq : rs.length = (r0 :: rt).length := by
        rw [← hre, idxOf_length isFetchB args 0]
        exact hlen
      have hr0lt : r0 < args.length := by
        have hmem : r0 ∈ idxOf isFetchB args 0 := by
          rw [hre]
          exact List.mem_cons_self r0 rt
        rcases (mem_idxOf isFetchB args 0 r0).mp hmem with ⟨k, it, hget, hit, hk⟩
        have : r0 = k := by omega
        subst this
        exact getQ_some_lt args r0 it hget
      have hr0lt2 : r0 < (args.map pureFix).length := by
        rw [List.length_map]
        exact hr0lt
      have hnodup : (r0 :: rt).Nodup := by
        rw [← hre]
        exact idxOf_nodup isFetchB args 0
      have hset : (setFetched (args.map pureFix) (r0 :: rt) rs).get? r0 =
          some (.notExistRec oid) := by
        have := setFetched_get_at (r0 :: rt) (args.map pureFix) rs 0 r0
          (FetchedRec.notExist oid) hnodup rfl (by rw [hrs]; rfl) hr0lt2
        rw [this]
        rfl
      simp only [move_call, hx, Bool.false_eq_true, if_false, hmeta, hne2]
      simp only [resolveArguments]
      rw [classifyFrom_eq args 0, hre, htups_nil]
      simp only [resolveObjects]
      rw [if_pos hleneq, hids]
      have hconv : convertTuples (setFetched (args.map pureFix) (r0 :: rt) rs)
          ([] ++ (r0 :: rt)) none = .error (.attributeError "owner") := by
        simp only [List.nil_append, convertTuples, hset]
      rw [hconv]

/-- C3 counterexample: a batch response whose record is typed nonexistent
makes the resolution fail with the owner AttributeError — an error that does
not name the missing identifiers — rather than with the
identifier-naming ValueError the claim requires. -/
theorem nonexistent_record_error_counterexample :
    move_call emptyTx (fun _ => some ⟨[⟨some false⟩], 1⟩) "0x2::m::f"
        [.objectId "0x9"] [] (.ok [.notExist "0x9"]) =
      (.error (.attributeError "owner"),
        { emptyTx with cache := [("0x2::m::f", ⟨[⟨some false⟩], 1⟩)] },
        [[.objectId "0x9"]]) ∧
    PyErr.attributeError "owner" ≠
      PyErr.valueError (unableMsg [Item.objectId "0x9"]) :=
  ⟨rfl, by decide⟩

/-- Witness for `fetch_shortfall_aborts_resolution`: a two-identifier
request answered by a single record aborts with the ValueError naming both
requested identifiers; a request answered by a nonexistent-typed record
aborts with the owner AttributeError.  Both leave the commands empty. -/
theorem fetch_shortfall_aborts_resolution_witness :
    (move_call emptyTx (fun _ => some ⟨[⟨some false⟩, ⟨some false⟩], 1⟩) "0x2::m::f"
        [.objectId "0x1", .objectId "0x2"] []
        (.ok [.read ⟨"0x1", 1, 1, .addressOwner "0xo"⟩]) =
      (.error (.valueError (unableMsg [Item.objectId "0x1", Item.objectId "0x2"])),
        { emptyTx with cache := [("0x2::m::f", ⟨[⟨some false⟩, ⟨some false⟩], 1⟩)] },
        [[Item.objectId "0x1", Item.objectId "0x2"]]) ∧
      ({ emptyTx with cache := [("0x2::m::f", ⟨[⟨some false⟩, ⟨some false⟩], 1⟩)] } : TxState).commands =
        emptyTx.commands) ∧
    (move_call emptyTx (fun _ => some ⟨[⟨some false⟩], 1⟩) "0x2::n::g"
        [.objectId "0x7"] [] (.ok [.notExist "0x7"]) =
      (.error (.attributeError "owner"),
        { emptyTx with cache := [("0x2::n::g", ⟨[⟨some false⟩], 1⟩)] },
        [[Item.objectId "0x7"]]) ∧
      ({ emptyTx with cache := [("0x2::n::g", ⟨[⟨some false⟩], 1⟩)] } : TxState).commands =
        emptyTx.commands) :=
  ⟨by
    have h := fetch_shortfall_aborts_resolution emptyTx
      (fun _ => some ⟨[⟨some false⟩, ⟨some false⟩], 1⟩) "0x2::m::f"
      [.objectId "0x1", .objectId "0x2"] []
      [.read ⟨"0x1", 1, 1, .addressOwner "0xo"⟩]
      ⟨[⟨some false⟩, ⟨some false⟩], 1⟩
      { emptyTx with cache := [("0x2::m::f", ⟨[⟨some false⟩, ⟨some false⟩], 1⟩)] }
      rfl (by decide) rfl
    have h2 := h.1 (by decide) (by decide)
    simpa using h2,
   by
    have h := fetch_shortfall_aborts_resolution emptyTx
      (fun _ => some ⟨[⟨some false⟩], 1⟩) "0x2::n::g"
      [.objectId "0x7"] [] [.notExist "0x7"]
      ⟨[⟨some false⟩], 1⟩
      { emptyTx with cache := [("0x2::n::g", ⟨[⟨some false⟩], 1⟩)] }
      rfl (by decide) rfl
    have h2 := h.2 "0x7" [] rfl (by decide) (by decide)
    simpa using h2⟩

/-! ## Single-execution invariant (C4) -/

/-- C4 counterexample: `make_move_vector` is a mutating builder method with
no `assert not self._executed` guard — called on an already-executed
transaction it does not fail with the StateError the claim requires; it
succeeds, appending its MakeMoveVector command to the log. -/
theorem make_move_vector_ignores_executed_state :
    make_move_vector { emptyTx with executed := true }
        [.protoArg (.result 0)] none (.ok []) =
      (.ok (.result 0),
       { executed := true,
         commands := [.makeMoveVec none [.protoArg (.result 0)]],
         cache := [], objectsRegistry := [] },
       []) ∧
    (make_move_vector { emptyTx with executed := true }
        [.protoArg (.result 0)] none (.ok [])).1 ≠
      .error (.assertionError "Transaction already executed") :=
  ⟨rfl, fun h => Except.noConfusion h⟩

/-- C4 (amended): once a transaction object is marked executed, every
mutating builder method that carries the `assert not self._executed` guard
(`move_call`, `split_coin`, `merge_coins`, `transfer_objects`,
`split_coin_and_return`) and `execute` itself fail with the assertion-class
"Transaction already executed" error; and any completed `execute` leaves the
object in that state, so a second `execute` on the same object fails the
same way.  `make_move_vector` is excepted: it carries no such assertion and
still appends its command after execution. -/
theorem builder_methods_fail_after_execute (st : TxState)
    (metaFor : String → Option FnMeta) (target : String) (args : List Item)
    (tas : List String) (resp resp2 resp3 resp4 resp5 : Except String (List FetchedRec))
    (coin mt coin2 : Item) (amounts : List Nat) (mf transfers : List Item)
    (recipient : String) (n : Nat) (ct : String)
    (gas_budget : Option Nat) (inspect : InspectOutcome)
    (ugo : Option CoinRead) (gp : Nat) (pay : List ObjectReference)
    (ow sender : String) (sr : SuiRpcResult)
    (h : st.executed = true) :
    (move_call st metaFor target args tas resp).1 =
        .error (.assertionError "Transaction already executed") ∧
    (split_coin st coin amounts resp2).1 =
        .error (.assertionError "Transaction already executed") ∧
    (merge_coins st mt mf resp3 resp4).1 =
        .error (.assertionError "Transaction already executed") ∧
    (transfer_objects st transfers recipient resp5).1 =
        .error (.assertionError "Transaction already executed") ∧
    (split_coin_and_return st metaFor coin2 n ct resp).1 =
        .error (.assertionError "Transaction already executed") ∧
    (execute st gas_budget inspect ugo gp pay ow sender sr).1 =
        .error (.assertionError "Transaction already executed") ∧
    (∀ st0 r st2 k,
      execute st0 gas_budget inspect ugo gp pay ow sender sr = (.ok r, st2, k) →
      (execute st2 gas_budget inspect ugo gp pay ow sender sr).1 =
        .error (.assertionError "Transaction already executed")) := by
  refine ⟨?_, ?_, ?_, ?_, ?_, ?_, ?_⟩
  · simp [move_call, h]
  · simp [split_coin, h]
  · simp [merge_coins, h]
  · simp [transfer_objects, h]
  · simp [split_coin_and_return, h]
  · simp [execute, h]
  · intro st0 r st2 k hexec
    by_cases h0 : st0.executed
    · simp [execute, h0] at hexec
    · simp only [execute, h0, Bool.false_eq_true, if_false] at hexec
      cases hb : build_for_execute st0 (gas_budget.getD 1000000) inspect ugo gp pay ow sender with
      | error e => rw [hb] at hexec; simp at hexec
      | ok td =>
        rw [hb] at hexec
        have hst2 : st2 = { st0 with executed := true } := by
          have := hexec
          injection this with h1 h2
          injection h2 with h3 h4
          exact h3.symm
        rw [hst2]
        simp [execute]

/-- Witness for `builder_methods_fail_after_execute` on a concrete executed
transaction object. -/
theorem builder_methods_fail_after_execute_witness :
    ({ emptyTx with executed := true } : TxState).executed = true ∧
    (move_call { emptyTx with executed := true } (fun _ => none) "0x2::m::f" []
        [] (.ok [])).1 = .error (.assertionError "Transaction already executed") ∧
    (execute { emptyTx with executed := true } none (.respOk 1) none 1 [] "o" "s"
        ⟨true, ""⟩).1 = .error (.assertionError "Transaction already executed") :=
  have h := builder_methods_fail_after_execute { emptyTx with executed := true }
    (fun _ => none) "0x2::m::f" [] [] (.ok []) (.ok []) (.ok []) (.ok []) (.ok [])
    (.objectId "0xc") (.objectId "0xd") (.objectId "0xe") [] [] [] "0xr" 2
    "0x2::sui::SUI" none (.respOk 1) none 1 [] "o" "s" ⟨true, ""⟩ rfl
  ⟨rfl, h.1, h.2.2.2.2.2.1⟩

/-! ## Move-call mutability patch (C6) -/

/-- Does the declared parameter at position `i` carry a mutability flag set
to mutable (`hasattr(parm, "is_mutable") and parm.is_mutable`)? -/
def paramMut (parms : List FnParam) (i : Nat) : Bool :=
  match parms.get? i with
  | some p => p.is_mutable = some true
  | none => false

lemma setMutable_flag (o : ObjectArg) : o.setMutable.mutableFlag = some true := by
  cases o <;> rfl

lemma patchOne_mut {parm : FnParam} (h : parm.is_mutable = some true)
    (b : BuilderArg) (o : ObjectArg) :
    patchOne parm (.objPair b o) = .objPair b o.setMutable := by
  simp [patchOne, h]

lemma patchOne_skip {parm : FnParam} {arg : Item}
    (h : parm.is_mutable ≠ some true ∨ ∀ b o, arg ≠ Item.objPair b o) :
    patchOne parm arg = arg := by
  rcases h with h | h
  · cases hm : parm.is_mutable with
    | none => cases arg <;> simp [patchOne, hm]
    | some bv =>
      cases bv with
      | true => exact absurd hm h
      | false => cases arg <;> simp [patchOne, hm]
  · cases arg with
    | objPair b o => exact absurd rfl (h b o)
    | _ => cases hm : parm.is_mutable with
      | none => simp_all [patchOne]
      | some bv => cases bv <;> simp_all [patchOne]

lemma patchLoop_spec :
    ∀ (args : List Item) (parms : List FnParam) (out : List Item),
      patchLoop args parms = .ok out →
      out.length = args.length ∧
      (∀ i b o, args.get? i = some (.objPair b o) → paramMut parms i = true →
        out.get? i = some (.objPair b o.setMutable)) ∧
      (∀ i, (paramMut parms i = false ∨
          ∀ b o, args.get? i ≠ some (.objPair b o)) →
        out.get? i = args.get? i) := by
  intro args
  induction args with
  | nil =>
    intro parms out h
    have hout : out = [] := by
      simp [patchLoop] at h
      exact h
    subst hout
    refine ⟨rfl, ?_, ?_⟩
    · intro i b o hg
      simp at hg
    · intro i _
      rfl
  | cons arg rest ih =>
    intro parms out h
    cases parms with
    | nil => simp [patchLoop] at h
    | cons parm ps =>
      simp only [patchLoop] at h
      cases hp : patchLoop rest ps with
      | error e => rw [hp] at h; simp at h
      | ok out2 =>
        rw [hp] at h
        have hout : out = patchOne parm arg :: out2 := by
          injection h with h2
          exact h2.symm
        subst hout
        obtain ⟨hlen, hmut, hskip⟩ := ih ps out2 hp
        refine ⟨by simp [hlen], ?_, ?_⟩
        · intro i b o hg hm
          cases i with
          | zero =>
            have harg : arg = .objPair b o := by simpa using hg
            have hpm : parm.is_mutable = some true := by
              have h2 : paramMut (parm :: ps) 0 = true := hm
              simp [paramMut] at h2
              exact h2
            subst harg
            simp [patchOne_mut hpm]
          | succ i2 =>
            have := hmut i2 b o (by simpa using hg) (by simpa [paramMut] using hm)
            simpa using this
        · intro i hcond
          cases i with
          | zero =>
            have : patchOne parm arg = arg := by
              apply patchOne_skip
              rcases hcond with hc | hc
              · left
                intro hmm
                have hc2 : paramMut (parm :: ps) 0 = false := hc
                simp [paramMut, hmm] at hc2
              · right
                intro b o hbo
                exact hc b o (by simp [hbo])
            simp [this]
          | succ i2 =>
            have := hskip i2 (by
              rcases hcond with hc | hc
              · left
                simpa [paramMut] using hc
              · right
                intro b o hbo
                exact hc b o (by simpa using hbo))
            simpa using this

/-- C6: on every successful `move_call` with a nonempty argument list, the
command appended to the log carries the patched argument list: at every
position whose declared parameter is mutable and whose resolved argument is
an Object pair, the pair's `ObjectArg` has its `Mutable` field set to `True`
before the append; positions whose parameter is not mutable, or whose
resolved argument is not an Object pair, are left unpatched. -/
theorem move_call_patches_mutable_object_args (st : TxState)
    (metaFor : String → Option FnMeta) (target : String) (args : List Item)
    (tas : List String) (resp : Except String (List FetchedRec))
    (a : Argument) (st2 : TxState) (log : List (List Item))
    (hx : st.executed = false) (hne : args ≠ [])
    (h : move_call st metaFor target args tas resp = (.ok a, st2, log)) :
    ∃ fm st1 resolved patched,
      targetLookup st metaFor target = .ok (fm, st1) ∧
      resolveArguments args resp = (.ok resolved, log) ∧
      patchLoop resolved fm.parameters = .ok patched ∧
      st1.commands = st.commands ∧
      st2 = { st1 with commands :=
        st1.commands ++ [.moveCall target patched tas fm.returnsCount] } ∧
      patched.length = resolved.length ∧
      (∀ i b o, resolved.get? i = some (.objPair b o) →
        paramMut fm.parameters i = true →
        patched.get? i = some (.objPair b o.setMutable) ∧
        (o.setMutable).mutableFlag = some true) ∧
      (∀ i, (paramMut fm.parameters i = false ∨
          ∀ b o, resolved.get? i ≠ some (.objPair b o)) →
        patched.get? i = resolved.get? i) := by
  have hne2 : args.isEmpty = false := by
    cases args with
    | nil => exact absurd rfl hne
    | cons x l => rfl
  simp only [move_call, hx, Bool.false_eq_true, if_false, hne2] at h
  cases htl : targetLookup st metaFor target with
  | error e => rw [htl] at h; simp at h
  | ok pr =>
    obtain ⟨fm, st1⟩ := pr
    rw [htl] at h
    simp only [Bool.false_eq_true, if_false] at h
    cases hra : resolveArguments args resp with
    | mk fst logr =>
      cases fst with
      | error e => rw [hra] at h; simp at h
      | ok resolved =>
        simp only [hra] at h
        cases hpl : patchLoop resolved fm.parameters with
        | error e => simp only [hpl] at h; simp at h
        | ok patched =>
          simp only [hpl] at h
          simp only [appendCommand, Prod.mk.injEq] at h
          obtain ⟨ha, hst, hlog⟩ := h
          obtain ⟨hplen, hpmut, hpskip⟩ := patchLoop_spec resolved fm.parameters patched hpl
          refine ⟨fm, st1, resolved, patched, rfl, ?_, hpl,
            (targetLookup_preserves st metaFor target fm st1 htl).1,
            hst.symm, hplen, ?_, hpskip⟩
          · rw [hlog]
          · intro i b o hg hm
            exact ⟨hpmut i b o hg hm, setMutable_flag o⟩

/-- Witness for `move_call_patches_mutable_object_args`: a shared object
resolved for a mutable first parameter is patched to `Mutable := true`; the
Pure second argument is left unpatched. -/
theorem move_call_patches_mutable_object_args_witness :
    move_call emptyTx (fun _ => some ⟨[⟨some true⟩, ⟨none⟩], 1⟩) "0x2::m::f"
        [.objectId "0xs", .intVal 4] [] (.ok [.read ⟨"0xs", 5, 6, .sharedOwner 3⟩]) =
      (.ok (.result 0),
        { emptyTx with
            cache := [("0x2::m::f", ⟨[⟨some true⟩, ⟨none⟩], 1⟩)],
            commands := [.moveCall "0x2::m::f"
              [.objPair (.object "0xs") (.sharedObject ⟨"0xs", 3, true⟩),
               .pureInput (.u64 4)] [] 1] },
        [[Item.objectId "0xs"]]) ∧
    (∃ fm st1 resolved patched,
      targetLookup emptyTx (fun _ => some ⟨[⟨some true⟩, ⟨none⟩], 1⟩) "0x2::m::f" =
        .ok (fm, st1) ∧
      resolveArguments [.objectId "0xs", .intVal 4]
          (.ok [.read ⟨"0xs", 5, 6, .sharedOwner 3⟩]) =
        (.ok resolved, [[Item.objectId "0xs"]]) ∧
      patchLoop resolved fm.parameters = .ok patched ∧
      st1.commands = emptyTx.commands ∧
      ({ emptyTx with
            cache := [("0x2::m::f", ⟨[⟨some true⟩, ⟨none⟩], 1⟩)],
            commands := [.moveCall "0x2::m::f"
              [.objPair (.object "0xs") (.sharedObject ⟨"0xs", 3, true⟩),
               .pureInput (.u64 4)] [] 1] } : TxState) = { st1 with commands :=
        st1.commands ++ [.moveCall "0x2::m::f" patched [] fm.returnsCount] } ∧
      patched.length = resolved.length ∧
      (∀ i b o, resolved.get? i = some (.objPair b o) →
        paramMut fm.parameters i = true →
        patched.get? i = some (.objPair b o.setMutable) ∧
        (o.setMutable).mutableFlag = some true) ∧
      (∀ i, (paramMut fm.parameters i = false ∨
          ∀ b o, resolved.get? i ≠ some (.objPair b o)) →
        patched.get? i = resolved.get? i)) :=
  ⟨rfl,
   move_call_patches_mutable_object_args emptyTx
     (fun _ => some ⟨[⟨some true⟩, ⟨none⟩], 1⟩) "0x2::m::f"
     [.objectId "0xs", .intVal 4] [] (.ok [.read ⟨"0xs", 5, 6, .sharedOwner 3⟩])
     (.result 0)
     { emptyTx with
         cache := [("0x2::m::f", ⟨[⟨some true⟩, ⟨none⟩], 1⟩)],
         commands := [.moveCall "0x2::m::f"
           [.objPair (.object "0xs") (.sharedObject ⟨"0xs", 3, true⟩),
            .pureInput (.u64 4)] [] 1] }
     [[Item.objectId "0xs"]] rfl (by decide) rfl⟩

/-! ## Split-and-return expansion (C8) -/

/-- Every cached entry agrees with the execution service's metadata. -/
def cacheConsistent (cache : List (String × FnMeta))
    (metaFor : String → Option FnMeta) : Prop :=
  ∀ t fm, (t, fm) ∈ cache → metaFor t = some fm

lemma lookupCache_mem :
    ∀ (cache : List (String × FnMeta)) (t : String) (fm : FnMeta),
      lookupCache cache t = some fm → (t, fm) ∈ cache := by
  intro cache
  induction cache with
  | nil => intro t fm h; simp [lookupCache] at h
  | cons e rest ih =>
    intro t fm h
    obtain ⟨k, v⟩ := e
    by_cases hk : k = t
    · subst hk
      simp [lookupCache] at h
      rw [h]
      exact List.mem_cons_self _ _
    · simp [lookupCache, hk] at h
      exact List.mem_cons_of_mem _ (ih t fm h)

lemma targetLookup_consistent (st : TxState) (metaFor : String → Option FnMeta)
    (t : String) (fm : FnMeta)
    (hcc : cacheConsistent st.cache metaFor) (hm : metaFor t = some fm) :
    ∃ st1, targetLookup st metaFor t = .ok (fm, st1) ∧
      st1.commands = st.commands ∧ st1.executed = st.executed ∧
      st1.objectsRegistry = st.objectsRegistry ∧
      cacheConsistent st1.cache metaFor := by
  unfold targetLookup
  cases hc : lookupCache st.cache t with
  | some fm2 =>
    have hmem := lookupCache_mem st.cache t fm2 hc
    have := hcc t fm2 hmem
    rw [hm] at this
    injection this with h2
    subst h2
    exact ⟨st, rfl, rfl, rfl, rfl, hcc⟩
  | none =>
    rw [hm]
    refine ⟨{ st with cache := st.cache ++ [(t, fm)] }, rfl, rfl, rfl, rfl, ?_⟩
    intro t2 fm2 hmem
    rcases List.mem_append.mp hmem with hold | hnew
    · exact hcc t2 fm2 hold
    · have : (t2, fm2) = (t, fm) := by simpa using hnew
      injection this with ht hf
      subst ht
      subst hf
      exact hm

lemma patchLoop_no_pairs :
    ∀ (args : List Item) (parms : List FnParam),
      (∀ it ∈ args, ∀ b o, it ≠ Item.objPair b o) →
      args.length ≤ parms.length →
      patchLoop args parms = .ok args := by
  intro args
  induction args with
  | nil => intro parms _ _; rfl
  | cons arg rest ih =>
    intro parms hnp hlen
    cases parms with
    | nil => simp at hlen
    | cons parm ps =>
      have hr := ih ps (fun it hit => hnp it (List.mem_cons_of_mem arg hit))
        (by simpa using hlen)
      have hone : patchOne parm arg = arg :=
        patchOne_skip (Or.inr (hnp arg (List.mem_cons_self arg rest)))
      simp [patchLoop, hr, hone]

lemma int_move_call_ok (st : TxState) (metaFor : String → Option FnMeta)
    (t : String) (fm : FnMeta) (args patched : List Item) (tas : List String)
    (hcc : cacheConsistent st.cache metaFor) (hm : metaFor t = some fm)
    (hne : args ≠ []) (hp : patchLoop args fm.parameters = .ok patched) :
    ∃ st2, int_move_call st metaFor t args tas =
        (.ok (.result st.commands.length), st2) ∧
      st2.commands = st.commands ++ [.moveCall t patched tas fm.returnsCount] ∧
      st2.executed = st.executed ∧
      st2.objectsRegistry = st.objectsRegistry ∧
      cacheConsistent st2.cache metaFor := by
  obtain ⟨st1, htl, hcmd, hex, hreg, hcc1⟩ :=
    targetLookup_consistent st metaFor t fm hcc hm
  have hne2 : args.isEmpty = false := by
    cases args with
    | nil => exact absurd rfl hne
    | cons x l => rfl
  refine ⟨{ st1 with commands :=
      st1.commands ++ [.moveCall t patched tas fm.returnsCount] }, ?_, ?_, ?_, ?_, ?_⟩
  · simp only [int_move_call, htl, hne2, Bool.false_eq_true, if_false, hp,
      appendCommand, hcmd]
  · simp [hcmd]
  · simp [hex]
  · simp [hreg]
  · exact hcc1

lemma removeLoop_spec (metaFor : String → Option FnMeta) (rv : Argument)
    (tag : String) (m2 m3 : FnMeta)
    (hm2 : metaFor VECTOR_REMOVE_INDEX = some m2)
    (hm3 : metaFor VECTOR_DESTROY_EMPTY = some m3)
    (hp2 : 2 ≤ m2.parameters.length) (hp3 : 1 ≤ m3.parameters.length) :
    ∀ (k : Nat) (st : TxState) (acc : List Argument),
      cacheConsistent st.cache metaFor →
      ∃ st9 res, removeLoop metaFor rv tag k st acc = (.ok res, st9) ∧
        res.length = acc.length + k ∧
        st9.commands = st.commands
          ++ List.replicate k (Command.moveCall VECTOR_REMOVE_INDEX
              [.protoArg rv, .pureInput (.u64 0)] [tag] m2.returnsCount)
          ++ [Command.moveCall VECTOR_DESTROY_EMPTY [.protoArg rv] [tag]
              m3.returnsCount] ∧
        st9.executed = st.executed := by
  intro k
  induction k with
  | zero =>
    intro st acc hcc
    have hpatch3 : patchLoop [Item.protoArg rv] m3.parameters =
        .ok [Item.protoArg rv] := by
      apply patchLoop_no_pairs
      · intro it hit b o
        have : it = Item.protoArg rv := by simpa using hit
        rw [this]
        simp
      · simpa using hp3
    obtain ⟨st2, hcall, hcmd, hex, _, _⟩ :=
      int_move_call_ok st metaFor VECTOR_DESTROY_EMPTY m3
        [Item.protoArg rv] [Item.protoArg rv] [tag] hcc hm3 (by simp) hpatch3
    refine ⟨st2, acc, ?_, by simp, ?_, hex⟩
    · simp only [removeLoop, hcall]
    · rw [hcmd]
      simp
  | succ k2 ih =>
    intro st acc hcc
    have hpatch2 : patchLoop [Item.protoArg rv, Item.pureInput (.u64 0)]
        m2.parameters = .ok [Item.protoArg rv, Item.pureInput (.u64 0)] := by
      apply patchLoop_no_pairs
      · intro it hit b o
        rcases List.mem_cons.mp hit with rfl | hit2
        · simp
        · have : it = Item.pureInput (.u64 0) := by simpa using hit2
          rw [this]
          simp
      · simpa using hp2
    obtain ⟨st2, hcall, hcmd, hex, _, hcc2⟩ :=
      int_move_call_ok st metaFor VECTOR_REMOVE_INDEX m2
        [Item.protoArg rv, Item.pureInput (.u64 0)]
        [Item.protoArg rv, Item.pureInput (.u64 0)] [tag] hcc hm2 (by simp) hpatch2
    obtain ⟨st9, res, hloop, hreslen, hcmds9, hex9⟩ :=
      ih st2 (acc ++ [Argument.result st.commands.length]) hcc2
    refine ⟨st9, res, ?_, ?_, ?_, ?_⟩
    · simp only [removeLoop, hcall, hloop]
    · rw [hreslen]
      simp
      omega
    · rw [hcmds9, hcmd]
      simp [List.replicate_succ, List.append_assoc]
    · rw [hex9, hex]

/-- C8: `split_coin_and_return` with `split_count = n` rejects `n < 2` with
a ValueError before appending any command; for `n ≥ 2` it appends exactly
one divide-into-n move call, then exactly `n - 1` vector-remove-by-index
extraction calls, then exactly one vector-destroy-empty call, the
destroy-empty command last, and returns the `n - 1` extracted coins. -/
theorem split_coin_and_return_expansion (st : TxState)
    (metaFor : String → Option FnMeta) (coin : Item) (n : Nat)
    (ct : String) (resp : Except String (List FetchedRec))
    (m1 m2 m3 : FnMeta) (resolved patched : List Item)
    (logx : List (List Item))
    (hx : st.executed = false)
    (hcc : cacheConsistent st.cache metaFor)
    (hm1 : metaFor SPLIT_AND_RETURN = some m1)
    (hm2 : metaFor VECTOR_REMOVE_INDEX = some m2)
    (hm3 : metaFor VECTOR_DESTROY_EMPTY = some m3)
    (hres : resolveArguments [coerceToObjectId coin, .pureInput (.u64 n)] resp =
      (.ok resolved, logx))
    (hrne : resolved ≠ [])
    (hpatch : patchLoop resolved m1.parameters = .ok patched)
    (hp2 : 2 ≤ m2.parameters.length) (hp3 : 1 ≤ m3.parameters.length) :
    (n < 2 → split_coin_and_return st metaFor coin n ct resp =
      (.error (.valueError ("Split count " ++ toString n ++ " must be greater than 1")), st)) ∧
    (2 ≤ n → ∃ st9 nres,
      split_coin_and_return st metaFor coin n ct resp = (.ok nres, st9) ∧
      nres.length = n - 1 ∧
      st9.commands = st.commands
        ++ [Command.moveCall SPLIT_AND_RETURN patched [ct] m1.returnsCount]
        ++ List.replicate (n - 1) (Command.moveCall VECTOR_REMOVE_INDEX
            [.protoArg (Argument.result st.commands.length), .pureInput (.u64 0)]
            [coinTypeTag ct] m2.returnsCount)
        ++ [Command.moveCall VECTOR_DESTROY_EMPTY
            [.protoArg (Argument.result st.commands.length)] [coinTypeTag ct]
            m3.returnsCount]) := by
  constructor
  · intro hlt
    simp [split_coin_and_return, hx, hlt]
  · intro hge
    have hnlt : ¬ n < 2 := by omega
    have hrne2 : resolved.isEmpty = false := by
      cases resolved with
      | nil => exact absurd rfl hrne
      | cons x l => rfl
    obtain ⟨st1, hcall, hcmd1, hex1, _, hcc1⟩ :=
      int_move_call_ok st metaFor SPLIT_AND_RETURN m1 resolved patched [ct]
        hcc hm1 hrne hpatch
    obtain ⟨st9, res, hloop, hreslen, hcmds9, _⟩ :=
      removeLoop_spec metaFor (Argument.result st.commands.length)
        (coinTypeTag ct) m2 m3 hm2 hm3 hp2 hp3 (n - 1) st1 [] hcc1
    refine ⟨st9, res, ?_, ?_, ?_⟩
    · simp only [split_coin_and_return, hx, Bool.false_eq_true, if_false,
        hnlt, hres]
      simp only [hcall]
      exact hloop
    · simpa using hreslen
    · rw [hcmds9, hcmd1]

/-- Concrete target metadata for the split-and-return witness. -/
def wMetaFor : String → Option FnMeta := fun t =>
  if t = SPLIT_AND_RETURN then some ⟨[⟨some true⟩, ⟨none⟩], 1⟩
  else if t = VECTOR_REMOVE_INDEX then some ⟨[⟨some true⟩, ⟨none⟩], 1⟩
  else if t = VECTOR_DESTROY_EMPTY then some ⟨[⟨some true⟩], 0⟩
  else none

/-- The resolved argument pair of the split-and-return witness. -/
def wResolved : List Item :=
  [.objPair (.object "0xc") (.immOrOwnedObject ⟨"0xc", 1, 1⟩ none),
   .pureInput (.u64 3)]

/-- The patched argument pair of the split-and-return witness. -/
def wPatched : List Item :=
  [.objPair (.object "0xc") (.immOrOwnedObject ⟨"0xc", 1, 1⟩ (some true)),
   .pureInput (.u64 3)]

/-- Witness for `split_coin_and_return_expansion` at `split_count = 3`: one
divide call, two extraction commands, one destroy-empty command last. -/
theorem split_coin_and_return_expansion_witness :
    2 ≤ 3 ∧ ∃ st9 nres,
      split_coin_and_return emptyTx wMetaFor (.objectId "0xc") 3 "0x2::sui::SUI"
          (.ok [.read ⟨"0xc", 1, 1, .addressOwner "0xo"⟩]) = (.ok nres, st9) ∧
      nres.length = 3 - 1 ∧
      st9.commands = emptyTx.commands
        ++ [Command.moveCall SPLIT_AND_RETURN wPatched ["0x2::sui::SUI"]
            (FnMeta.mk [⟨some true⟩, ⟨none⟩] 1).returnsCount]
        ++ List.replicate (3 - 1) (Command.moveCall VECTOR_REMOVE_INDEX
            [.protoArg (Argument.result emptyTx.commands.length), .pureInput (.u64 0)]
            [coinTypeTag "0x2::sui::SUI"] (FnMeta.mk [⟨some true⟩, ⟨none⟩] 1).returnsCount)
        ++ [Command.moveCall VECTOR_DESTROY_EMPTY
            [.protoArg (Argument.result emptyTx.commands.length)]
            [coinTypeTag "0x2::sui::SUI"] (FnMeta.mk [⟨some true⟩] 0).returnsCount] :=
  ⟨by decide,
   (split_coin_and_return_expansion emptyTx wMetaFor (.objectId "0xc") 3
      "0x2::sui::SUI" (.ok [.read ⟨"0xc", 1, 1, .addressOwner "0xo"⟩])
      ⟨[⟨some true⟩, ⟨none⟩], 1⟩ ⟨[⟨some true⟩, ⟨none⟩], 1⟩ ⟨[⟨some true⟩], 0⟩
      wResolved wPatched [[.objectId "0xc"]]
      rfl (by intro t fm h; exact absurd h (List.not_mem_nil _)) rfl rfl rfl
      rfl (by decide) rfl (by decide) (by decide)).2 (by decide)⟩

/-! ## make_move_vector homogeneity and the falsy-first-item slip (C9) -/

/-- C9: `make_move_vector` on the heterogeneous pure list `[0, "abc"]` — a
falsy `int` as the first non-`Argument` element — is NOT rejected: the
`if first_item:` truthiness test routes it to the all-`Argument` branch,
which appends the vector command on the raw unresolved items and returns a
result handle.  The truthy analog `[1, "abc"]` is rejected as a
pure-candidate element type, and the empty list is rejected — pinning the
divergence from the claimed behaviour to the falsy first element. -/
theorem make_move_vector_falsy_first_item :
    make_move_vector emptyTx [.intVal 0, .strVal "abc"] none (.ok []) =
      (.ok (.result 0),
       { emptyTx with commands := [.makeMoveVec none [.intVal 0, .strVal "abc"]] },
       []) ∧
    (make_move_vector emptyTx [.intVal 1, .strVal "abc"] none (.ok [])).1 =
      .error (.valueError "make_move_vec is for Objects only. Found type int") ∧
    (make_move_vector emptyTx [] none (.ok [])).1 =
      .error (.valueError "make_vector requires a non-empty list") :=
  ⟨rfl, rfl, rfl⟩
